import Mathlib

/-!
Verification of the DocuSync folder-reconciliation engine (`app/sync.py`)
against its specification.

The development shallowly embeds the pure decision core of
`analyze_folder_sync` and `sync_folders`:

* a catalog record (`Doc`) mirrors the columns of `app.database.Document`
  that the sync engine reads (`file_path`, `md5_hash`, `size`,
  `date_created`); the model has no modified-timestamp field because the
  `documents` table has none;
* the database query "documents under this folder" is modelled by handing
  the analyzer the list of records directly (`files1`, `files2`), assuming
  every `index_document` call succeeds — scanning, SQL and the web layer
  are outside the claims;
* `time.time()` is modelled by an explicit clock `Nat → Int` (the value
  returned by the n-th call); the 1-second throttle test
  `now - last_emit_time >= 1.0` becomes `last_emit + 1 ≤ now`;
* the progress callback is assumed present; each emitted payload is
  recorded in a trace.  Payloads that carry no counters (the raw
  "Scanning ..." callbacks) are recorded as `Payload.rawScan`;
* `shutil.copy2` / `calculate_md5` on the target after a copy are modelled
  by recording the copy operation and consulting a `rehash` oracle
  (`String → String`, the digest the target hashes to after the copy),
  which lets corrupted copies be expressed;
* Python's iteration over `set(...)` has unspecified order; the model
  iterates such intersections in first-insertion order.  Every property
  proved or refuted below is insensitive to that order.

Several result fields (`all_matched_pairs`, `all_unmatched_f1`,
`all_unmatched_f2`, `matched_by_name_per_md5`, the traces, `byte_copies`,
`indexed`) expose values the source computes transiently (its local
variables `matched_pairs`, `unmatched_f1`, `unmatched_f2`,
`matched_by_name_per_md5`, the emitted payloads, the performed
`shutil.copy2` and `_index_copied_file` calls) so that the specification's
invariants about them can be stated.
-/

/-- Catalog record: the fields of `app.database.Document` read by the sync
engine.  `date_created` is nullable in the schema, hence `Option`;
timestamps are epoch integers. -/
structure Doc where
  file_path : String
  md5_hash : String
  size : Nat
  date_created : Option Int
  deriving DecidableEq, Repr

/-- Lexicographic byte-wise string order used to model Python's `sorted`
on filenames (compare code points, shorter string first on ties). -/
def charsLe : List Char → List Char → Bool
  | [], _ => true
  | _ :: _, [] => false
  | a :: as, b :: bs =>
    if a.val < b.val then true else if b.val < a.val then false else charsLe as bs

/-- String comparison on the underlying character lists. -/
def strLe (a b : String) : Bool := charsLe a.data b.data

/-- Insert a string into an already sorted list (used to model `sorted`). -/
def insertSorted (x : String) : List String → List String
  | [] => [x]
  | y :: ys => if strLe x y then x :: y :: ys else y :: insertSorted x ys

/-- Model of Python `sorted` on a list of strings (insertion sort). -/
def sortStrings (l : List String) : List String := l.foldr insertSorted []

/-- Character classifying the two path separators, `/` and `\`. -/
def sepChar (c : Char) : Bool := c == '/' || c == '\\'

/-- Accumulate the current path component, restarting at separators. -/
def basenameAux (cur : List Char) : List Char → List Char
  | [] => cur
  | c :: rest => if sepChar c then basenameAux [] rest else basenameAux (cur ++ [c]) rest

/-- Model of `os.path.basename`: the final component after the last `/` or
`\` separator. -/
def basename (p : String) : String := ⟨basenameAux [] p.data⟩

/-- Model of `os.path.join` for the POSIX-style paths used in proofs. -/
def joinPath (a b : String) : String := a ++ "/" ++ b

/-- Character-list prefix test. -/
def isPrefixChars : List Char → List Char → Bool
  | [], _ => true
  | _ :: _, [] => false
  | a :: as, b :: bs => a == b && isPrefixChars as bs

/-- Model of `os.path.relpath p base` for the case the claims exercise:
`p` lies under `base`. -/
def relpathOf (p base : String) : String :=
  if isPrefixChars (base ++ "/").data p.data then ⟨p.data.drop (base.data.length + 1)⟩
  else p

section Groups

variable {α : Type}

/-- One step of building an insertion-ordered dict-of-lists
(`folder1_dict[name].append(doc)` in the source): append `d` to the entry
keyed `k`, or add a new entry at the end. -/
def addToGroup (k : String) (d : α) : List (String × List α) → List (String × List α)
  | [] => [(k, [d])]
  | (k', ds) :: rest =>
    if k' = k then (k', ds ++ [d]) :: rest else (k', ds) :: addToGroup k d rest

/-- Group a list by a string key, preserving both key first-appearance
order and the order of values within a key — the behaviour of the
source's `dict`-of-lists accumulation loops. -/
def groupByKey (kf : α → String) (l : List α) : List (String × List α) :=
  l.foldl (fun acc d => addToGroup (kf d) d acc) []

/-- Keys of a grouping, in order. -/
def keysOf (g : List (String × List α)) : List String := g.map Prod.fst

/-- Model of `dict.get(k, [])`. -/
def lookupGroup (g : List (String × List α)) (k : String) : List α :=
  match g.find? (fun pr => pr.1 == k) with
  | some pr => pr.2
  | none => []

end Groups

/-- Increment the counter stored under `k` by `v`
(`d[k] = d.get(k, 0) + v`). -/
def bumpAssoc : List (String × Nat) → String → Nat → List (String × Nat)
  | [], k, v => [(k, v)]
  | (k', v') :: rest, k, v =>
    if k' = k then (k', v' + v) :: rest else (k', v') :: bumpAssoc rest k v

/-- Apply a batch of counter increments left to right. -/
def bumpMany (acc : List (String × Nat)) (l : List (String × Nat)) : List (String × Nat) :=
  l.foldl (fun a pr => bumpAssoc a pr.1 pr.2) acc

/-- Model of `d.get(k, 0)` on a counter dict. -/
def lookupCount (c : List (String × Nat)) (k : String) : Nat :=
  match c.find? (fun pr => pr.1 == k) with
  | some pr => pr.2
  | none => 0

/-- Add `n` to the name set stored under hash `h`
(`names_by_md5.setdefault(h, set()).add(n)`); sets are modelled as
duplicate-free insertion-ordered lists. -/
def addName : List (String × List String) → String → String → List (String × List String)
  | [], h, n => [(h, [n])]
  | (h', ns) :: rest, h, n =>
    if h' = h then (h', if ns.contains n then ns else ns ++ [n]) :: rest
    else (h', ns) :: addName rest h n

/-- Model of `names_by_md5.get(h, set())`. -/
def lookupNames (c : List (String × List String)) (h : String) : List String :=
  match c.find? (fun pr => pr.1 == h) with
  | some pr => pr.2
  | none => []

/-- Per-hash occurrence counts over a name-grouping
(the source's `md5_counts_f*` loops over `folder*_dict.items()`). -/
def md5CountsOf (g : List (String × List Doc)) : List (String × Nat) :=
  g.foldl (fun acc pr => pr.2.foldl (fun a d => bumpAssoc a d.md5_hash 1) acc) []

/-- Per-hash name sets over a name-grouping
(the source's `names_by_md5_f*` loops). -/
def namesByMd5 (g : List (String × List Doc)) : List (String × List String) :=
  g.foldl (fun acc pr => pr.2.foldl (fun a d => addName a d.md5_hash pr.1) acc) []

/-- Hash grouping of one filename's records
(`f1_by_md5` / `f2_by_md5` in the source). -/
def md5Groups (docs : List Doc) : List (String × List Doc) :=
  groupByKey (fun d => d.md5_hash) docs

/-- Keys present in both groupings (`set(f1_by_md5) & set(f2_by_md5)`,
iterated in the first grouping's insertion order). -/
def sharedKeys (g1 g2 : List (String × List Doc)) : List String :=
  (keysOf g1).filter (fun k => (keysOf g2).contains k)

/-- One matched same-name pair (an element of the source's
`matched_pairs`, with its hash). -/
structure MatchedPair where
  folder1 : Doc
  folder2 : Doc
  md5 : String
  deriving DecidableEq, Repr

/-- Number of pairs matched for hash `h` of one filename:
`min(len(f1_by_md5[h]), len(f2_by_md5[h]))`. -/
def pairCount (g1 g2 : List (String × List Doc)) (h : String) : Nat :=
  min (lookupGroup g1 h).length (lookupGroup g2 h).length

/-- The matched pairs contributed by hash `h` of one filename
(`f1_by_md5[h][i]` with `f2_by_md5[h][i]` for `i < pairs_count`). -/
def pairsFor (g1 g2 : List (String × List Doc)) (h : String) : List MatchedPair :=
  let p := pairCount g1 g2 h
  (((lookupGroup g1 h).take p).zip ((lookupGroup g2 h).take p)).map
    (fun q => ⟨q.1, q.2, h⟩)

/-- Folder-1 records of hash `h` beyond the paired minimum
(`f1_by_md5[h][pairs_count:]`). -/
def leftoverF1 (g1 g2 : List (String × List Doc)) (h : String) : List Doc :=
  (lookupGroup g1 h).drop (pairCount g1 g2 h)

/-- Folder-2 records of hash `h` beyond the paired minimum. -/
def leftoverF2 (g1 g2 : List (String × List Doc)) (h : String) : List Doc :=
  (lookupGroup g2 h).drop (pairCount g1 g2 h)

/-- Outcome of comparing one filename present on both sides (the body of
the source's `else` branch: steps 1–3 of the per-name matching). -/
structure NameCompare where
  exact_here : Nat
  matched_pairs : List MatchedPair
  unmatched_f1 : List Doc
  unmatched_f2 : List Doc
  per_md5 : List (String × Nat)
  deriving DecidableEq, Repr

/-- Per-filename matching: group each side's records for this name by
hash, pair off `min` records per shared hash, and collect the leftovers
(excess beyond the minimum, plus hashes present on one side only). -/
def compareName (docs1 docs2 : List Doc) : NameCompare :=
  let g1 := md5Groups docs1
  let g2 := md5Groups docs2
  let shared := sharedKeys g1 g2
  { exact_here := (shared.map (pairCount g1 g2)).sum
    matched_pairs := (shared.map (pairsFor g1 g2)).flatten
    unmatched_f1 :=
      (shared.map (leftoverF1 g1 g2)).flatten ++
        ((g1.filter (fun pr => !((keysOf g2).contains pr.1))).map Prod.snd).flatten
    unmatched_f2 :=
      (shared.map (leftoverF2 g1 g2)).flatten ++
        ((g2.filter (fun pr => !((keysOf g1).contains pr.1))).map Prod.snd).flatten
    per_md5 := shared.map (fun h => (h, pairCount g1 g2 h)) }

/-- One conflict entry of the analysis result (the source's
`duplicates.append({...})`). -/
structure DupGroup where
  relative_path : String
  folder1_docs : List Doc
  folder2_docs : List Doc
  matched_pairs : List MatchedPair
  deriving DecidableEq, Repr

/-- One suspected cross-name rename entry
(`suspected_duplicates.append({...})`). -/
structure Suspected where
  md5 : String
  folder1_names : List String
  folder2_names : List String
  count_pairs : Nat
  deriving DecidableEq, Repr

/-- One payload handed to the progress callback: either a counter-carrying
snapshot or a raw `"Scanning ..."` payload that has no counters. -/
inductive Payload where
  | snapshot (phase : String) (scanned equals needs_sync : Nat)
  | rawScan
  deriving DecidableEq, Repr

/-- State threaded through the throttled `emit_progress` closure:
the index of the next `time.time()` call, the last emission time, and the
payloads emitted so far. -/
structure EmitState where
  tick : Nat
  last_emit : Int
  trace : List Payload
  deriving Repr

/-- Model of one `emit_progress(phase, extra)` call without a counter
override: consult the clock, and if at least one second elapsed emit the
displayed counters `equals`, `max needs (scanned - equals)` and their sum
(the source's invariant-enforcing display arithmetic). -/
def emitCall (clock : Nat → Int) (phase : String) (scanned equals needs : Nat)
    (st : EmitState) : EmitState :=
  if st.last_emit + 1 ≤ clock st.tick then
    { tick := st.tick + 1, last_emit := clock st.tick,
      trace := st.trace ++
        [Payload.snapshot phase (equals + max needs (scanned - equals)) equals
          (max needs (scanned - equals))] }
  else { st with tick := st.tick + 1 }

/-- The indexing loop over one folder's files: after file `idx` the running
`scanned_indexed` is `base + idx + 1`, and `emit_progress` is called when
`idx % 10 == 0 or idx == len - 1`. -/
def scanLoop (clock : Nat → Int) (phase : String) (base n : Nat)
    (st : EmitState) : EmitState :=
  (List.range n).foldl
    (fun s idx =>
      if idx % 10 == 0 || idx == n - 1 then
        emitCall clock phase (base + idx + 1) 0 0 s
      else s)
    st

/-- The scan phase of `analyze_folder_sync`: the initial `last_emit_time =
time.time() - 1.0`, the `"starting"` emission, and for each folder a raw
`"Scanning ..."` callback, the indexing loop and the completion emission. -/
def scanPhase (clock : Nat → Int) (n1 n2 : Nat) : EmitState :=
  let st0 : EmitState := ⟨1, clock 0 - 1, []⟩
  let st1 := emitCall clock "starting" 0 0 0 st0
  let st2 := { st1 with trace := st1.trace ++ [Payload.rawScan] }
  let st3 := scanLoop clock "scan_folder1" 0 n1 st2
  let st4 := emitCall clock "scan_folder1" n1 0 0 st3
  let st5 := { st4 with trace := st4.trace ++ [Payload.rawScan] }
  let st6 := scanLoop clock "scan_folder2" n1 n2 st5
  emitCall clock "scan_folder2" (n1 + n2) 0 0 st6

/-- State of the per-filename comparison loop.  The `all_*` fields
accumulate the per-name `matched_pairs` / `unmatched_f*` classifications
(transient locals in the source); `ctrace` records the compare-phase
emissions, which all pass `force=True` and override the payload counters,
so they are emitted unconditionally. -/
structure CompareState where
  missing_in_folder1 : List Doc
  missing_in_folder2 : List Doc
  duplicates : List DupGroup
  equals_by_name_count : Nat
  exact_match_count : Nat
  conflict_match_count : Nat
  uniques_count : Nat
  needs_sync_count : Nat
  matchedByName : List (String × Nat)
  all_matched_pairs : List MatchedPair
  all_unmatched_f1 : List Doc
  all_unmatched_f2 : List Doc
  ctrace : List Payload
  deriving Repr

/-- Empty initial comparison state. -/
def initCompare : CompareState :=
  ⟨[], [], [], 0, 0, 0, 0, 0, [], [], [], [], []⟩

/-- One iteration of the comparison loop for filename `nk`
(`for name_key in names_all` in the source; `conflict_match_count` is the
source's `partial_match_count`). -/
def stepName (g1 g2 : List (String × List Doc)) (st : CompareState)
    (nk : String) : CompareState :=
  let docs1 := lookupGroup g1 nk
  let docs2 := lookupGroup g2 nk
  if docs2.isEmpty then
    let u := st.uniques_count + docs1.length
    { st with
      missing_in_folder2 := st.missing_in_folder2 ++ docs1
      uniques_count := u
      needs_sync_count := st.needs_sync_count + docs1.length
      ctrace := st.ctrace ++
        [Payload.snapshot "compare" (st.equals_by_name_count + u)
          st.equals_by_name_count u] }
  else if docs1.isEmpty then
    let u := st.uniques_count + docs2.length
    { st with
      missing_in_folder1 := st.missing_in_folder1 ++ docs2
      uniques_count := u
      needs_sync_count := st.needs_sync_count + docs2.length
      ctrace := st.ctrace ++
        [Payload.snapshot "compare" (st.equals_by_name_count + u)
          st.equals_by_name_count u] }
  else
    let c := compareName docs1 docs2
    let leftovers := c.unmatched_f1.length + c.unmatched_f2.length
    let e := st.equals_by_name_count + c.exact_here
    let u := st.uniques_count + leftovers
    { st with
      duplicates :=
        if leftovers > 0 then
          st.duplicates ++
            [⟨nk, if c.unmatched_f1.isEmpty then docs1 else c.unmatched_f1,
              if c.unmatched_f2.isEmpty then docs2 else c.unmatched_f2,
              c.matched_pairs⟩]
        else st.duplicates
      equals_by_name_count := e
      exact_match_count := st.exact_match_count + c.exact_here
      conflict_match_count := st.conflict_match_count + leftovers
      uniques_count := u
      needs_sync_count := st.needs_sync_count + leftovers
      matchedByName := bumpMany st.matchedByName c.per_md5
      all_matched_pairs := st.all_matched_pairs ++ c.matched_pairs
      all_unmatched_f1 := st.all_unmatched_f1 ++ c.unmatched_f1
      all_unmatched_f2 := st.all_unmatched_f2 ++ c.unmatched_f2
      ctrace := st.ctrace ++ [Payload.snapshot "compare" (e + u) e u] }

/-- Name grouping of one side's records
(`folder*_dict`, keyed by `os.path.basename(doc.file_path)`). -/
def nameGroups (files : List Doc) : List (String × List Doc) :=
  groupByKey (fun d => basename d.file_path) files

/-- The deterministically ordered filename iteration list
(`sorted(set(folder1_dict) | set(folder2_dict))`). -/
def comparedNames (files1 files2 : List Doc) : List String :=
  sortStrings ((keysOf (nameGroups files1) ++ keysOf (nameGroups files2)).dedup)

/-- The cross-name suspected-rename pass: for each hash present on both
sides, if the same-name pairing left `min(count1, count2) - already`
occurrences unexplained and the two sides' name sets are disjoint, record
a suspected duplicate. -/
def suspectedOf (g1 g2 : List (String × List Doc))
    (matched : List (String × Nat)) : List Suspected :=
  let c1 := md5CountsOf g1
  let c2 := md5CountsOf g2
  let nb1 := namesByMd5 g1
  let nb2 := namesByMd5 g2
  ((c1.map Prod.fst).filter (fun h => (c2.map Prod.fst).contains h)).foldl
    (fun acc h =>
      let remaining := min (lookupCount c1 h) (lookupCount c2 h) - lookupCount matched h
      if remaining > 0 then
        let names1 := lookupNames nb1 h
        let names2 := lookupNames nb2 h
        if names1.all (fun n => !(names2.contains n)) then
          acc ++ [⟨h, sortStrings names1, sortStrings names2, remaining⟩]
        else acc
      else acc)
    []

/-- The analysis result dictionary of `analyze_folder_sync`, together with
the ghost classification fields and the emission traces (see the module
comment). -/
structure AnalyzeResult where
  missing_in_folder1 : List Doc
  missing_in_folder2 : List Doc
  duplicates : List DupGroup
  suspected_duplicates : List Suspected
  equals_by_name_count : Nat
  exact_match_count : Nat
  conflict_match_count : Nat
  missing_count_folder1 : Nat
  missing_count_folder2 : Nat
  duplicate_count : Nat
  space_needed_folder1 : Nat
  space_needed_folder2 : Nat
  all_matched_pairs : List MatchedPair
  all_unmatched_f1 : List Doc
  all_unmatched_f2 : List Doc
  matched_by_name_per_md5 : List (String × Nat)
  scan_trace : List Payload
  compare_trace : List Payload
  trace : List Payload
  deriving Repr

/-- The reconciliation analysis (`analyze_folder_sync`): index both trees,
group by basename, walk the sorted filename union classifying records,
then run the suspected-rename pass and the final forced emission. -/
def analyze_folder_sync (files1 files2 : List Doc) (clock : Nat → Int) :
    AnalyzeResult :=
  let g1 := nameGroups files1
  let g2 := nameGroups files2
  let st := (comparedNames files1 files2).foldl (stepName g1 g2) initCompare
  let susp := suspectedOf g1 g2 st.matchedByName
  let suspected_count := (susp.map (fun s => s.count_pairs)).sum
  let finalSnap :=
    Payload.snapshot "compare"
      (st.equals_by_name_count + (st.uniques_count + suspected_count))
      st.equals_by_name_count (st.uniques_count + suspected_count)
  let sc := scanPhase clock files1.length files2.length
  { missing_in_folder1 := st.missing_in_folder1
    missing_in_folder2 := st.missing_in_folder2
    duplicates := st.duplicates
    suspected_duplicates := susp
    equals_by_name_count := st.equals_by_name_count
    exact_match_count := st.exact_match_count
    conflict_match_count := st.conflict_match_count
    missing_count_folder1 := st.missing_in_folder1.length
    missing_count_folder2 := st.missing_in_folder2.length
    duplicate_count := st.duplicates.length
    space_needed_folder1 := (st.missing_in_folder1.map (fun d => d.size)).sum
    space_needed_folder2 := (st.missing_in_folder2.map (fun d => d.size)).sum
    all_matched_pairs := st.all_matched_pairs
    all_unmatched_f1 := st.all_unmatched_f1
    all_unmatched_f2 := st.all_unmatched_f2
    matched_by_name_per_md5 := st.matchedByName
    scan_trace := sc.trace
    compare_trace := st.ctrace ++ [finalSnap]
    trace := sc.trace ++ (st.ctrace ++ [finalSnap]) }

/-- A performed byte copy (`shutil.copy2(src, dst)`). -/
structure CopyOp where
  src : String
  dst : String
  deriving DecidableEq, Repr

/-- One entry of `resolved_duplicates`. -/
structure ResolvedDup where
  relative_path : String
  action : String
  targets : List String
  deriving DecidableEq, Repr

/-- Contribution of one conflict group to the sync result. -/
structure DupOutcome where
  copies1 : List String
  copies2 : List String
  resolved : List ResolvedDup
  errors : List String
  ops : List CopyOp
  deriving DecidableEq, Repr

/-- Concatenation of duplicate-resolution contributions. -/
def appendOutcome (a b : DupOutcome) : DupOutcome :=
  ⟨a.copies1 ++ b.copies1, a.copies2 ++ b.copies2, a.resolved ++ b.resolved,
    a.errors ++ b.errors, a.ops ++ b.ops⟩

/-- Resolution of one conflict group in `sync_folders`: the source takes
`docs1[0]` and `docs2[0]` and dispatches on the strategy string; an
unrecognized strategy falls through every branch and contributes nothing.
The empty-list case cannot arise from the analyzer's output (its conflict
doc lists are non-empty); the source would raise `IndexError` there. -/
def resolveDup (strategy tf1 tf2 : String) (g : DupGroup) : DupOutcome :=
  match g.folder1_docs, g.folder2_docs with
  | d1 :: _, d2 :: _ =>
    if strategy = "keep_both" then
      let t1 := joinPath tf1 (g.relative_path ++ ".folder2")
      let t2 := joinPath tf2 (g.relative_path ++ ".folder1")
      ⟨[t1], [t2], [⟨g.relative_path, "keep_both", [t1, t2]⟩], [],
        [⟨d2.file_path, t1⟩, ⟨d1.file_path, t2⟩]⟩
    else if strategy = "keep_newest" then
      let date1 := d1.date_created.getD 0
      let date2 := d2.date_created.getD 0
      if date2 > date1 then
        let t := joinPath tf1 g.relative_path
        ⟨[t], [], [⟨g.relative_path, "keep_newest_folder2", [t]⟩], [],
          [⟨d2.file_path, t⟩]⟩
      else
        let t := joinPath tf2 g.relative_path
        ⟨[], [t], [⟨g.relative_path, "keep_newest_folder1", [t]⟩], [],
          [⟨d1.file_path, t⟩]⟩
    else if strategy = "keep_largest" then
      if d2.size > d1.size then
        let t := joinPath tf1 g.relative_path
        ⟨[t], [], [⟨g.relative_path, "keep_largest_folder2", [t]⟩], [],
          [⟨d2.file_path, t⟩]⟩
      else
        let t := joinPath tf2 g.relative_path
        ⟨[], [t], [⟨g.relative_path, "keep_largest_folder1", [t]⟩], [],
          [⟨d1.file_path, t⟩]⟩
    else ⟨[], [], [], [], []⟩
  | _, _ => ⟨[], [], [], [], []⟩

/-- Result of copying one side's unique files: successfully verified
targets, catalog index updates, per-item errors, performed byte copies. -/
structure UniqueOutcome where
  copied : List String
  indexed : List String
  errors : List String
  ops : List CopyOp
  deriving DecidableEq, Repr

/-- The unique-file copy loop of `sync_folders`: copy each record to its
target, re-hash the target, and on match record the copy and update the
catalog, otherwise record an `"MD5 mismatch"` error and continue. -/
def uniquePhase (rehash : String → String) (mkTarget : Doc → String) :
    List Doc → UniqueOutcome
  | [] => ⟨[], [], [], []⟩
  | d :: rest =>
    let t := mkTarget d
    let r := uniquePhase rehash mkTarget rest
    if rehash t = d.md5_hash then
      ⟨t :: r.copied, t :: r.indexed, r.errors, ⟨d.file_path, t⟩ :: r.ops⟩
    else
      ⟨r.copied, r.indexed, ("MD5 mismatch for " ++ t) :: r.errors,
        ⟨d.file_path, t⟩ :: r.ops⟩

/-- The dictionary returned by `sync_folders` plus the ghost operation
lists (`indexed` = targets passed to `_index_copied_file`, `byte_copies` =
performed `shutil.copy2` calls). -/
structure SyncResult where
  status : String
  copied_to_folder1 : List String
  copied_to_folder2 : List String
  resolved_duplicates : List ResolvedDup
  errors : List String
  indexed : List String
  byte_copies : List CopyOp
  deriving DecidableEq, Repr

/-- The sync executor (`sync_folders`): analyze, stop on dry-run, copy the
unique files of each side (hash-verifying each copy), then resolve each
conflict group per the strategy string. -/
def sync_folders (files1 files2 : List Doc) (folder1 folder2 strategy : String)
    (target_folder1 target_folder2 : Option String) (dry_run : Bool)
    (rehash : String → String) (clock : Nat → Int) : SyncResult :=
  let tf1 := target_folder1.getD folder1
  let tf2 := target_folder2.getD folder2
  let analysis := analyze_folder_sync files1 files2 clock
  if dry_run then ⟨"dry_run", [], [], [], [], [], []⟩
  else
    let u1 := uniquePhase rehash
      (fun d => joinPath tf1 (relpathOf d.file_path folder2))
      analysis.missing_in_folder1
    let u2 := uniquePhase rehash
      (fun d => joinPath tf2 (relpathOf d.file_path folder1))
      analysis.missing_in_folder2
    let dupo := analysis.duplicates.foldl
      (fun acc g => appendOutcome acc (resolveDup strategy tf1 tf2 g))
      ⟨[], [], [], [], []⟩
    { status := "completed"
      copied_to_folder1 := u1.copied ++ dupo.copies1
      copied_to_folder2 := u2.copied ++ dupo.copies2
      resolved_duplicates := dupo.resolved
      errors := u1.errors ++ u2.errors ++ dupo.errors
      indexed := u1.indexed ++ u2.indexed
      byte_copies := u1.ops ++ u2.ops ++ dupo.ops }

/-- Modelled from the spec: the effective timestamp a record carries for
`keep_newest` selection — "the later `modified_at` (falling back to
`created_at`, then filesystem `mtime` re-probed live if both are
missing)".  The catalog record (`Document`) has no modified-timestamp
column, so the chain reduces to `date_created` falling back to the live
mtime probed through the `mtimeOf` oracle. -/
def keepNewestSpecStamp (mtimeOf : String → Int) (d : Doc) : Int :=
  d.date_created.getD (mtimeOf d.file_path)

/-! ### Well-formedness of insertion-ordered groupings -/

section GroupLemmas

variable {α : Type}

/-- Well-formedness of a grouping: distinct keys, key-homogeneous values,
no empty value lists. -/
def GroupsWF (kf : α → String) (g : List (String × List α)) : Prop :=
  (keysOf g).Nodup ∧ (∀ pr ∈ g, ∀ d ∈ pr.2, kf d = pr.1) ∧ ∀ pr ∈ g, pr.2 ≠ []

theorem keysOf_addToGroup (k : String) (d : α) (acc : List (String × List α)) :
    keysOf (addToGroup k d acc) =
      if k ∈ keysOf acc then keysOf acc else keysOf acc ++ [k] := by
  induction acc with
  | nil => simp [addToGroup, keysOf]
  | cons pr rest ih =>
    obtain ⟨k', ds⟩ := pr
    by_cases hk : k' = k
    · subst hk
      simp [addToGroup, keysOf]
    · simp only [addToGroup, if_neg hk, keysOf, List.map_cons]
      simp only [keysOf] at ih
      rw [ih]
      have hne : ¬ (k ∈ ([k'] : List String)) := by simp [Ne.symm hk]
      by_cases hmem : k ∈ rest.map Prod.fst
      · simp [hmem, Ne.symm hk]
      · simp [hmem, Ne.symm hk]

theorem flatten_addToGroup_perm (k : String) (d : α) (acc : List (String × List α)) :
    List.Perm (((addToGroup k d acc).map Prod.snd).flatten)
      (((acc.map Prod.snd).flatten) ++ [d]) := by
  induction acc with
  | nil => simp [addToGroup]
  | cons pr rest ih =>
    obtain ⟨k', ds⟩ := pr
    by_cases hk : k' = k
    · subst hk
      simp only [addToGroup, eq_self_iff_true, if_true, List.map_cons, List.flatten_cons]
      have h1 : List.Perm ([d] ++ ((rest.map Prod.snd).flatten))
          (((rest.map Prod.snd).flatten) ++ [d]) := List.perm_append_comm
      have h2 : List.Perm (ds ++ ([d] ++ ((rest.map Prod.snd).flatten)))
          (ds ++ (((rest.map Prod.snd).flatten) ++ [d])) := h1.append_left ds
      have e1 : (ds ++ [d]) ++ ((rest.map Prod.snd).flatten)
          = ds ++ ([d] ++ ((rest.map Prod.snd).flatten)) := by simp
      have e2 : ds ++ (((rest.map Prod.snd).flatten) ++ [d])
          = (ds ++ ((rest.map Prod.snd).flatten)) ++ [d] := by simp
      rw [e1]
      exact e2 ▸ h2
    · simp only [addToGroup, if_neg hk, List.map_cons, List.flatten_cons]
      have h2 : List.Perm (ds ++ (((addToGroup k d rest).map Prod.snd).flatten))
          (ds ++ (((rest.map Prod.snd).flatten) ++ [d])) := ih.append_left ds
      have e2 : ds ++ (((rest.map Prod.snd).flatten) ++ [d])
          = (ds ++ ((rest.map Prod.snd).flatten)) ++ [d] := by simp
      exact e2 ▸ h2

theorem addToGroup_hom {kf : α → String} (k : String) (d : α) (hk : kf d = k)
    (acc : List (String × List α))
    (hhom : ∀ pr ∈ acc, ∀ x ∈ pr.2, kf x = pr.1) :
    ∀ pr ∈ addToGroup k d acc, ∀ x ∈ pr.2, kf x = pr.1 := by
  induction acc with
  | nil =>
    intro pr hpr x hx
    simp [addToGroup] at hpr
    subst hpr
    simp at hx
    subst hx
    exact hk
  | cons qr rest ih =>
    obtain ⟨k', ds⟩ := qr
    intro pr hpr x hx
    by_cases hkk : k' = k
    · subst hkk
      simp only [addToGroup, eq_self_iff_true, if_true] at hpr
      rcases List.mem_cons.1 hpr with h | h
      · subst h
        rcases List.mem_append.1 hx with h2 | h2
        · exact hhom (k', ds) (List.mem_cons_self _ _) x h2
        · simp at h2
          subst h2
          exact hk
      · exact hhom pr (List.mem_cons_of_mem _ h) x hx
    · simp only [addToGroup, if_neg hkk] at hpr
      rcases List.mem_cons.1 hpr with h | h
      · subst h
        exact hhom (k', ds) (List.mem_cons_self _ _) x hx
      · exact ih (fun pr2 hpr2 => hhom pr2 (List.mem_cons_of_mem _ hpr2)) pr h x hx

theorem addToGroup_ne (k : String) (d : α) (acc : List (String × List α))
    (hne : ∀ pr ∈ acc, pr.2 ≠ []) :
    ∀ pr ∈ addToGroup k d acc, pr.2 ≠ [] := by
  induction acc with
  | nil =>
    intro pr hpr
    simp [addToGroup] at hpr
    subst hpr
    simp
  | cons qr rest ih =>
    obtain ⟨k', ds⟩ := qr
    intro pr hpr
    by_cases hkk : k' = k
    · subst hkk
      simp only [addToGroup, eq_self_iff_true, if_true] at hpr
      rcases List.mem_cons.1 hpr with h | h
      · subst h; simp
      · exact hne pr (List.mem_cons_of_mem _ h)
    · simp only [addToGroup, if_neg hkk] at hpr
      rcases List.mem_cons.1 hpr with h | h
      · subst h
        exact hne (k', ds) (List.mem_cons_self _ _)
      · exact ih (fun pr2 hpr2 => hne pr2 (List.mem_cons_of_mem _ hpr2)) pr h

theorem addToGroup_keys_nodup (k : String) (d : α) (acc : List (String × List α))
    (hnd : (keysOf acc).Nodup) : (keysOf (addToGroup k d acc)).Nodup := by
  rw [keysOf_addToGroup]
  by_cases hmem : k ∈ keysOf acc
  · simpa [hmem] using hnd
  · simp only [hmem, if_false]
    rw [List.nodup_append]
    refine ⟨hnd, List.nodup_singleton _, ?_⟩
    intro a ha hb
    simp at hb
    subst hb
    exact hmem ha

theorem groupsWF_addToGroup {kf : α → String} {acc : List (String × List α)}
    (hwf : GroupsWF kf acc) (d : α) : GroupsWF kf (addToGroup (kf d) d acc) :=
  ⟨addToGroup_keys_nodup _ _ _ hwf.1,
   addToGroup_hom _ _ rfl _ hwf.2.1,
   addToGroup_ne _ _ _ hwf.2.2⟩

theorem groupsWF_foldl {kf : α → String} (l : List α)
    (acc : List (String × List α)) (hwf : GroupsWF kf acc) :
    GroupsWF kf (l.foldl (fun a d => addToGroup (kf d) d a) acc) := by
  induction l generalizing acc with
  | nil => exact hwf
  | cons d rest ih =>
    exact ih _ (groupsWF_addToGroup hwf d)

theorem groupsWF_groupByKey (kf : α → String) (l : List α) :
    GroupsWF kf (groupByKey kf l) :=
  groupsWF_foldl l [] ⟨List.nodup_nil, by simp, by simp⟩

theorem flatten_foldl_perm {kf : α → String} (l : List α)
    (acc : List (String × List α)) :
    List.Perm (((l.foldl (fun a d => addToGroup (kf d) d a) acc).map Prod.snd).flatten)
      (((acc.map Prod.snd).flatten) ++ l) := by
  induction l generalizing acc with
  | nil => simp
  | cons d rest ih =>
    have h1 := ih (addToGroup (kf d) d acc)
    have h2 := (flatten_addToGroup_perm (kf d) d acc).append_right rest
    have h3 := h1.trans h2
    have e : (((acc.map Prod.snd).flatten) ++ [d]) ++ rest
        = ((acc.map Prod.snd).flatten) ++ (d :: rest) := by simp
    simpa [e] using h3

theorem flatten_groupByKey_perm (kf : α → String) (l : List α) :
    List.Perm (((groupByKey kf l).map Prod.snd).flatten) l := by
  have h : List.Perm
      (((l.foldl (fun a d => addToGroup (kf d) d a) []).map Prod.snd).flatten)
      ((([] : List (String × List α)).map Prod.snd).flatten ++ l) :=
    flatten_foldl_perm l []
  simpa [groupByKey] using h

theorem lookupGroup_of_mem {g : List (String × List α)}
    (hnd : (keysOf g).Nodup) {pr : String × List α} (h : pr ∈ g) :
    lookupGroup g pr.1 = pr.2 := by
  induction g with
  | nil => simp at h
  | cons qr rest ih =>
    rcases List.mem_cons.1 h with h1 | h1
    · subst h1
      simp [lookupGroup, List.find?]
    · have hne : ¬ (qr.1 == pr.1) = true := by
        simp only [beq_iff_eq]
        intro hq
        have : pr.1 ∈ keysOf rest := List.mem_map.2 ⟨pr, h1, rfl⟩
        rw [keysOf, List.map_cons, List.nodup_cons] at hnd
        exact hnd.1 (hq ▸ this)
      simp only [lookupGroup, List.find?, hne]
      exact ih (by
        rw [keysOf, List.map_cons, List.nodup_cons] at hnd
        exact hnd.2) h1

theorem lookupGroup_of_not_mem {g : List (String × List α)} {k : String}
    (h : k ∉ keysOf g) : lookupGroup g k = [] := by
  induction g with
  | nil => rfl
  | cons qr rest ih =>
    have h1 : ¬ (qr.1 == k) = true := by
      simp only [beq_iff_eq]
      intro hq
      exact h (by simp [keysOf, hq])
    simp only [lookupGroup, List.find?, h1]
    exact ih (fun hm => h (by simp [keysOf] at hm ⊢; exact Or.inr hm))

theorem mem_of_mem_lookupGroup {g : List (String × List α)} {k : String} {x : α}
    (h : x ∈ lookupGroup g k) : ∃ pr ∈ g, pr.1 = k ∧ x ∈ pr.2 := by
  induction g with
  | nil => simp [lookupGroup] at h
  | cons qr rest ih =>
    by_cases hq : (qr.1 == k) = true
    · simp only [lookupGroup, List.find?, hq] at h
      exact ⟨qr, List.mem_cons_self _ _, beq_iff_eq.1 hq, h⟩
    · simp only [lookupGroup, List.find?, hq] at h
      obtain ⟨pr, hpr, hk, hx⟩ := ih h
      exact ⟨pr, List.mem_cons_of_mem _ hpr, hk, hx⟩

theorem mem_keysOf_of_lookup_ne {g : List (String × List α)} {k : String}
    (h : lookupGroup g k ≠ []) : k ∈ keysOf g := by
  by_contra hmem
  exact h (lookupGroup_of_not_mem hmem)

theorem map_lookup_keys {g : List (String × List α)}
    (hnd : (keysOf g).Nodup) :
    (keysOf g).map (lookupGroup g) = g.map Prod.snd := by
  rw [keysOf, List.map_map]
  apply List.map_congr_left
  intro pr hpr
  exact lookupGroup_of_mem hnd hpr

theorem countP_flatten_groups {kf : α → String} {g : List (String × List α)}
    (hwf : GroupsWF kf g) (k : String) :
    ((g.map Prod.snd).flatten.countP (fun d => kf d == k)) =
      (lookupGroup g k).length := by
  induction g with
  | nil => simp [lookupGroup]
  | cons qr rest ih =>
    obtain ⟨hnd, hhom, hne⟩ := hwf
    have hndr : (keysOf rest).Nodup := by
      rw [keysOf, List.map_cons, List.nodup_cons] at hnd
      exact hnd.2
    have ihr := ih ⟨hndr, fun pr hpr => hhom pr (List.mem_cons_of_mem _ hpr),
      fun pr hpr => hne pr (List.mem_cons_of_mem _ hpr)⟩
    by_cases hq : qr.1 = k
    · have hcnt : qr.2.countP (fun d => kf d == k) = qr.2.length := by
        apply List.countP_eq_length.2
        intro x hx
        simp only [beq_iff_eq]
        rw [hhom qr (List.mem_cons_self _ _) x hx]
        exact hq
      have hrest : ((rest.map Prod.snd).flatten.countP (fun d => kf d == k)) = 0 := by
        rw [ihr, lookupGroup_of_not_mem]
        · rfl
        · rw [keysOf, List.map_cons, List.nodup_cons] at hnd
          exact fun hm => hnd.1 (hq ▸ hm)
      have hlook : lookupGroup (qr :: rest) k = qr.2 := by
        have : (qr.1 == k) = true := beq_iff_eq.2 hq
        simp [lookupGroup, List.find?, this]
      simp only [List.map_cons, List.flatten_cons, List.countP_append, hcnt, hrest,
        hlook, Nat.add_zero]
    · have hcnt : qr.2.countP (fun d => kf d == k) = 0 := by
        rw [List.countP_eq_zero]
        intro x hx
        simp only [beq_iff_eq]
        rw [hhom qr (List.mem_cons_self _ _) x hx]
        exact hq
      have hlook : lookupGroup (qr :: rest) k = lookupGroup rest k := by
        have : ¬ (qr.1 == k) = true := by simp [beq_iff_eq, hq]
        simp [lookupGroup, List.find?, this]
      simp only [List.map_cons, List.flatten_cons, List.countP_append, hcnt, hlook,
        Nat.zero_add]
      exact ihr

theorem countP_key_groupByKey (kf : α → String) (l : List α) (k : String) :
    l.countP (fun d => kf d == k) =
      (lookupGroup (groupByKey kf l) k).length := by
  have h1 := (flatten_groupByKey_perm kf l).countP_eq (fun d => kf d == k)
  rw [← h1]
  exact countP_flatten_groups (groupsWF_groupByKey kf l) k

end GroupLemmas

/-! ### Sorting and general permutation helpers -/

theorem insertSorted_perm (x : String) (l : List String) :
    List.Perm (insertSorted x l) (x :: l) := by
  induction l with
  | nil => simp [insertSorted]
  | cons y ys ih =>
    by_cases h : strLe x y = true
    · simp [insertSorted, h]
    · simp only [insertSorted, h, if_false]
      exact (ih.cons y).trans (List.Perm.swap x y ys)

theorem sortStrings_perm (l : List String) : List.Perm (sortStrings l) l := by
  induction l with
  | nil => simp [sortStrings]
  | cons x xs ih =>
    have h1 : sortStrings (x :: xs) = insertSorted x (sortStrings xs) := rfl
    rw [h1]
    exact (insertSorted_perm x (sortStrings xs)).trans (ih.cons x)

theorem mem_sortStrings {l : List String} {a : String} :
    a ∈ sortStrings l ↔ a ∈ l := (sortStrings_perm l).mem_iff

theorem nodup_sortStrings {l : List String} (h : l.Nodup) :
    (sortStrings l).Nodup := (sortStrings_perm l).symm.nodup h

theorem flatten_map_append_perm {α β : Type} (f g : β → List α) (l : List β) :
    List.Perm ((l.map (fun x => f x ++ g x)).flatten)
      ((l.map f).flatten ++ (l.map g).flatten) := by
  induction l with
  | nil => simp
  | cons x xs ih =>
    simp only [List.map_cons, List.flatten_cons]
    have h1 : List.Perm ((f x ++ g x) ++ ((xs.map (fun x => f x ++ g x)).flatten))
        ((f x ++ g x) ++ (((xs.map f).flatten) ++ ((xs.map g).flatten))) :=
      ih.append_left _
    have h2 : List.Perm ((g x ++ ((xs.map f).flatten)) ++ ((xs.map g).flatten))
        ((((xs.map f).flatten) ++ g x) ++ ((xs.map g).flatten)) :=
      (List.perm_append_comm).append_right _
    have e1 : (f x ++ g x) ++ (((xs.map f).flatten) ++ ((xs.map g).flatten))
        = f x ++ ((g x ++ ((xs.map f).flatten)) ++ ((xs.map g).flatten)) := by simp
    have e2 : f x ++ ((((xs.map f).flatten) ++ g x) ++ ((xs.map g).flatten))
        = (f x ++ ((xs.map f).flatten)) ++ (g x ++ ((xs.map g).flatten)) := by simp
    refine h1.trans ?_
    rw [e1]
    refine (h2.append_left (f x)).trans ?_
    rw [e2]

theorem sum_map_ite_single {β : Type} [DecidableEq β] {l : List β} (hnd : l.Nodup)
    (h : β) (f : β → Nat) :
    (l.map (fun x => if x = h then f x else 0)).sum =
      if h ∈ l then f h else 0 := by
  induction l with
  | nil => simp
  | cons x xs ih =>
    rw [List.nodup_cons] at hnd
    by_cases hx : x = h
    · subst hx
      simp only [List.map_cons, List.sum_cons, eq_self_iff_true, if_true,
        List.mem_cons, true_or]
      rw [ih hnd.2]
      simp [hnd.1]
    · simp only [List.map_cons, List.sum_cons, hx, if_false, Nat.zero_add]
      rw [ih hnd.2]
      by_cases hm : h ∈ xs
      · simp [hm, Ne.symm hx]
      · simp [hm, Ne.symm hx]

theorem flatten_map_eq_nil {α β : Type} {l : List β} {f : β → List α}
    (h : ∀ x ∈ l, f x = []) : (l.map f).flatten = [] := by
  rw [List.flatten_eq_nil_iff]
  intro s hs
  obtain ⟨x, hx, rfl⟩ := List.mem_map.1 hs
  exact h x hx

/-! ### Per-filename matching lemmas -/

theorem lookupGroup_homog {α : Type} {kf : α → String} {g : List (String × List α)}
    (hwf : GroupsWF kf g) {k : String} :
    ∀ x ∈ lookupGroup g k, kf x = k := by
  intro x hx
  obtain ⟨pr, hpr, hk, hmem⟩ := mem_of_mem_lookupGroup hx
  rw [hwf.2.1 pr hpr x hmem, hk]

theorem mem_sharedKeys {g1 g2 : List (String × List Doc)} {k : String} :
    k ∈ sharedKeys g1 g2 ↔ k ∈ keysOf g1 ∧ k ∈ keysOf g2 := by
  simp [sharedKeys, List.mem_filter, List.elem_iff]

theorem sharedKeys_nodup {g1 g2 : List (String × List Doc)}
    (h : (keysOf g1).Nodup) : (sharedKeys g1 g2).Nodup :=
  h.filter _

theorem pairCount_le_left (g1 g2 : List (String × List Doc)) (h : String) :
    pairCount g1 g2 h ≤ (lookupGroup g1 h).length := Nat.min_le_left _ _

theorem pairCount_le_right (g1 g2 : List (String × List Doc)) (h : String) :
    pairCount g1 g2 h ≤ (lookupGroup g2 h).length := Nat.min_le_right _ _

theorem pairsFor_map_folder1 (g1 g2 : List (String × List Doc)) (h : String) :
    (pairsFor g1 g2 h).map (fun q => q.folder1) =
      (lookupGroup g1 h).take (pairCount g1 g2 h) := by
  unfold pairsFor
  rw [List.map_map]
  have e : ((fun q : MatchedPair => q.folder1) ∘
      (fun q : Doc × Doc => (⟨q.1, q.2, h⟩ : MatchedPair))) = Prod.fst := rfl
  rw [e]
  apply List.map_fst_zip
  rw [List.length_take_of_le (pairCount_le_left g1 g2 h),
    List.length_take_of_le (pairCount_le_right g1 g2 h)]

theorem pairsFor_map_folder2 (g1 g2 : List (String × List Doc)) (h : String) :
    (pairsFor g1 g2 h).map (fun q => q.folder2) =
      (lookupGroup g2 h).take (pairCount g1 g2 h) := by
  unfold pairsFor
  rw [List.map_map]
  have e : ((fun q : MatchedPair => q.folder2) ∘
      (fun q : Doc × Doc => (⟨q.1, q.2, h⟩ : MatchedPair))) = Prod.snd := rfl
  rw [e]
  apply List.map_snd_zip
  rw [List.length_take_of_le (pairCount_le_left g1 g2 h),
    List.length_take_of_le (pairCount_le_right g1 g2 h)]

theorem pairsFor_length (g1 g2 : List (String × List Doc)) (h : String) :
    (pairsFor g1 g2 h).length = pairCount g1 g2 h := by
  unfold pairsFor
  rw [List.length_map, List.length_zip,
    List.length_take_of_le (pairCount_le_left g1 g2 h),
    List.length_take_of_le (pairCount_le_right g1 g2 h), Nat.min_self]

theorem pairsFor_md5 (g1 g2 : List (String × List Doc)) (h : String) :
    ∀ q ∈ pairsFor g1 g2 h, q.md5 = h := by
  intro q hq
  unfold pairsFor at hq
  obtain ⟨x, _, rfl⟩ := List.mem_map.1 hq
  rfl

theorem countP_pairsFor (g1 g2 : List (String × List Doc)) (h' h : String) :
    (pairsFor g1 g2 h').countP (fun p => p.md5 == h) =
      if h' = h then pairCount g1 g2 h' else 0 := by
  by_cases he : h' = h
  · subst he
    rw [if_pos rfl, ← pairsFor_length g1 g2 h']
    apply List.countP_eq_length.2
    intro q hq
    simp only [beq_iff_eq]
    exact pairsFor_md5 g1 g2 h' q hq
  · rw [if_neg he, List.countP_eq_zero]
    intro q hq
    simp only [beq_iff_eq]
    rw [pairsFor_md5 g1 g2 h' q hq]
    exact he

theorem countP_matched_compareName (docs1 docs2 : List Doc) (h : String) :
    (compareName docs1 docs2).matched_pairs.countP (fun p => p.md5 == h) =
      min (docs1.countP (fun d => d.md5_hash == h))
        (docs2.countP (fun d => d.md5_hash == h)) := by
  have hg1 : GroupsWF (fun d : Doc => d.md5_hash) (md5Groups docs1) :=
    groupsWF_groupByKey (fun d : Doc => d.md5_hash) docs1
  have hc1 : docs1.countP (fun d => d.md5_hash == h) =
      (lookupGroup (md5Groups docs1) h).length :=
    countP_key_groupByKey (fun d : Doc => d.md5_hash) docs1 h
  have hc2 : docs2.countP (fun d => d.md5_hash == h) =
      (lookupGroup (md5Groups docs2) h).length :=
    countP_key_groupByKey (fun d : Doc => d.md5_hash) docs2 h
  simp only [compareName]
  rw [List.countP_flatten, List.map_map]
  have e1 : ((sharedKeys (md5Groups docs1) (md5Groups docs2)).map
      ((List.countP (fun p => p.md5 == h)) ∘ (pairsFor (md5Groups docs1) (md5Groups docs2)))) =
      ((sharedKeys (md5Groups docs1) (md5Groups docs2)).map
        (fun h' => if h' = h then pairCount (md5Groups docs1) (md5Groups docs2) h' else 0)) := by
    apply List.map_congr_left
    intro h' _
    exact countP_pairsFor _ _ h' h
  rw [e1, sum_map_ite_single (sharedKeys_nodup hg1.1) h]
  rw [hc1, hc2]
  show _ = pairCount (md5Groups docs1) (md5Groups docs2) h
  by_cases hm : h ∈ sharedKeys (md5Groups docs1) (md5Groups docs2)
  · rw [if_pos hm]
  · rw [if_neg hm]
    rcases not_and_or.1 (fun hand => hm (mem_sharedKeys.2 hand)) with hnk | hnk
    · rw [pairCount, lookupGroup_of_not_mem hnk]
      simp
    · rw [pairCount, lookupGroup_of_not_mem hnk]
      simp

theorem exact_here_eq_matched_length (docs1 docs2 : List Doc) :
    (compareName docs1 docs2).exact_here =
      (compareName docs1 docs2).matched_pairs.length := by
  simp only [compareName]
  rw [List.length_flatten, List.map_map]
  congr 1
  apply List.map_congr_left
  intro h' _
  exact (pairsFor_length _ _ h').symm

theorem groupsWF_filter {α : Type} {kf : α → String} {g : List (String × List α)}
    (hwf : GroupsWF kf g) (p : String × List α → Bool) :
    GroupsWF kf (g.filter p) := by
  refine ⟨?_, ?_, ?_⟩
  · exact List.Nodup.sublist ((List.filter_sublist g).map Prod.fst) hwf.1
  · intro pr hpr
    exact hwf.2.1 pr (List.mem_of_mem_filter hpr)
  · intro pr hpr
    exact hwf.2.2 pr (List.mem_of_mem_filter hpr)

theorem countP_leftoverF1 {docs1 : List Doc} (g2 : List (String × List Doc))
    (hwf : GroupsWF (fun d : Doc => d.md5_hash) (md5Groups docs1)) (h' h : String) :
    (leftoverF1 (md5Groups docs1) g2 h').countP (fun d => d.md5_hash == h) =
      if h' = h then
        (lookupGroup (md5Groups docs1) h').length - pairCount (md5Groups docs1) g2 h'
      else 0 := by
  by_cases he : h' = h
  · subst he
    rw [if_pos rfl, ← List.length_drop]
    apply List.countP_eq_length.2
    intro x hx
    simp only [beq_iff_eq]
    exact lookupGroup_homog hwf x (List.mem_of_mem_drop hx)
  · rw [if_neg he, List.countP_eq_zero]
    intro x hx
    simp only [beq_iff_eq]
    rw [lookupGroup_homog hwf x (List.mem_of_mem_drop hx)]
    exact he

theorem countP_leftoverF2 {docs2 : List Doc} (g1 : List (String × List Doc))
    (hwf : GroupsWF (fun d : Doc => d.md5_hash) (md5Groups docs2)) (h' h : String) :
    (leftoverF2 g1 (md5Groups docs2) h').countP (fun d => d.md5_hash == h) =
      if h' = h then
        (lookupGroup (md5Groups docs2) h').length - pairCount g1 (md5Groups docs2) h'
      else 0 := by
  by_cases he : h' = h
  · subst he
    rw [if_pos rfl, ← List.length_drop]
    apply List.countP_eq_length.2
    intro x hx
    simp only [beq_iff_eq]
    exact lookupGroup_homog hwf x (List.mem_of_mem_drop hx)
  · rw [if_neg he, List.countP_eq_zero]
    intro x hx
    simp only [beq_iff_eq]
    rw [lookupGroup_homog hwf x (List.mem_of_mem_drop hx)]
    exact he

theorem countP_only_side {α : Type} {kf : α → String} {g : List (String × List α)}
    (hwf : GroupsWF kf g) (p : String × List α → Bool) (q : String → Bool)
    (hpq : ∀ pr, p pr = q pr.1) (h : String) :
    (((g.filter p).map Prod.snd).flatten.countP (fun d => kf d == h)) =
      if h ∈ keysOf g ∧ q h = true then (lookupGroup g h).length else 0 := by
  have hwfF := groupsWF_filter hwf p
  rw [countP_flatten_groups hwfF h]
  by_cases hc : h ∈ keysOf g ∧ q h = true
  · rw [if_pos hc]
    obtain ⟨pr, hpr, hk⟩ := List.mem_map.1 hc.1
    have hprF : pr ∈ g.filter p :=
      List.mem_filter.2 ⟨hpr, by rw [hpq pr, hk]; exact hc.2⟩
    rw [← hk, lookupGroup_of_mem hwfF.1 hprF, lookupGroup_of_mem hwf.1 hpr]
  · rw [if_neg hc, lookupGroup_of_not_mem, List.length_nil]
    intro hmem
    obtain ⟨pr, hpr, hk⟩ := List.mem_map.1 hmem
    have hprG := List.mem_of_mem_filter hpr
    have hq : q pr.1 = true := by
      rw [← hpq pr]
      exact (List.mem_filter.1 hpr).2
    exact hc ⟨List.mem_map.2 ⟨pr, hprG, hk⟩, hk ▸ hq⟩

theorem countP_unmatched_f1 (docs1 docs2 : List Doc) (h : String) :
    (compareName docs1 docs2).unmatched_f1.countP (fun d => d.md5_hash == h) =
      docs1.countP (fun d => d.md5_hash == h) -
        min (docs1.countP (fun d => d.md5_hash == h))
          (docs2.countP (fun d => d.md5_hash == h)) := by
  have hg1 : GroupsWF (fun d : Doc => d.md5_hash) (md5Groups docs1) :=
    groupsWF_groupByKey (fun d : Doc => d.md5_hash) docs1
  have hc1 : docs1.countP (fun d => d.md5_hash == h) =
      (lookupGroup (md5Groups docs1) h).length :=
    countP_key_groupByKey (fun d : Doc => d.md5_hash) docs1 h
  have hc2 : docs2.countP (fun d => d.md5_hash == h) =
      (lookupGroup (md5Groups docs2) h).length :=
    countP_key_groupByKey (fun d : Doc => d.md5_hash) docs2 h
  simp only [compareName]
  rw [List.countP_append, List.countP_flatten, List.map_map]
  have e1 : ((sharedKeys (md5Groups docs1) (md5Groups docs2)).map
      ((List.countP (fun d => d.md5_hash == h)) ∘
        (leftoverF1 (md5Groups docs1) (md5Groups docs2)))) =
      ((sharedKeys (md5Groups docs1) (md5Groups docs2)).map
        (fun h' => if h' = h then
          (lookupGroup (md5Groups docs1) h').length -
            pairCount (md5Groups docs1) (md5Groups docs2) h'
        else 0)) := by
    apply List.map_congr_left
    intro h' _
    exact countP_leftoverF1 (md5Groups docs2) hg1 h' h
  rw [e1, sum_map_ite_single (sharedKeys_nodup hg1.1) h]
  rw [countP_only_side hg1 (fun pr => !((keysOf (md5Groups docs2)).contains pr.1))
    (fun k => !((keysOf (md5Groups docs2)).contains k)) (fun pr => rfl) h]
  rw [hc1, hc2]
  by_cases h1 : h ∈ keysOf (md5Groups docs1)
  · by_cases h2 : h ∈ keysOf (md5Groups docs2)
    · have hs : h ∈ sharedKeys (md5Groups docs1) (md5Groups docs2) :=
        mem_sharedKeys.2 ⟨h1, h2⟩
      have hq : ¬ (h ∈ keysOf (md5Groups docs1) ∧
          (!((keysOf (md5Groups docs2)).contains h)) = true) := by
        intro hand
        have := hand.2
        simp only [Bool.not_eq_true'] at this
        rw [← Bool.not_eq_true] at this
        exact this (List.elem_iff.2 h2)
      rw [if_pos hs, if_neg hq, Nat.add_zero]
      rfl
    · have hs : h ∉ sharedKeys (md5Groups docs1) (md5Groups docs2) := by
        intro hmem
        exact h2 (mem_sharedKeys.1 hmem).2
      have hq : h ∈ keysOf (md5Groups docs1) ∧
          (!((keysOf (md5Groups docs2)).contains h)) = true := by
        refine ⟨h1, ?_⟩
        simp only [Bool.not_eq_true']
        rw [← Bool.not_eq_true]
        intro hcon
        exact h2 (List.elem_iff.1 hcon)
      rw [if_neg hs, if_pos hq, Nat.zero_add,
        lookupGroup_of_not_mem h2, List.length_nil]
      simp
  · have hs : h ∉ sharedKeys (md5Groups docs1) (md5Groups docs2) := by
      intro hmem
      exact h1 (mem_sharedKeys.1 hmem).1
    have hq : ¬ (h ∈ keysOf (md5Groups docs1) ∧
        (!((keysOf (md5Groups docs2)).contains h)) = true) := fun hand => h1 hand.1
    rw [if_neg hs, if_neg hq, lookupGroup_of_not_mem h1, List.length_nil]
    simp

theorem countP_unmatched_f2 (docs1 docs2 : List Doc) (h : String) :
    (compareName docs1 docs2).unmatched_f2.countP (fun d => d.md5_hash == h) =
      docs2.countP (fun d => d.md5_hash == h) -
        min (docs1.countP (fun d => d.md5_hash == h))
          (docs2.countP (fun d => d.md5_hash == h)) := by
  have hg1 : GroupsWF (fun d : Doc => d.md5_hash) (md5Groups docs1) :=
    groupsWF_groupByKey (fun d : Doc => d.md5_hash) docs1
  have hg2 : GroupsWF (fun d : Doc => d.md5_hash) (md5Groups docs2) :=
    groupsWF_groupByKey (fun d : Doc => d.md5_hash) docs2
  have hc1 : docs1.countP (fun d => d.md5_hash == h) =
      (lookupGroup (md5Groups docs1) h).length :=
    countP_key_groupByKey (fun d : Doc => d.md5_hash) docs1 h
  have hc2 : docs2.countP (fun d => d.md5_hash == h) =
      (lookupGroup (md5Groups docs2) h).length :=
    countP_key_groupByKey (fun d : Doc => d.md5_hash) docs2 h
  simp only [compareName]
  rw [List.countP_append, List.countP_flatten, List.map_map]
  have e1 : ((sharedKeys (md5Groups docs1) (md5Groups docs2)).map
      ((List.countP (fun d => d.md5_hash == h)) ∘
        (leftoverF2 (md5Groups docs1) (md5Groups docs2)))) =
      ((sharedKeys (md5Groups docs1) (md5Groups docs2)).map
        (fun h' => if h' = h then
          (lookupGroup (md5Groups docs2) h').length -
            pairCount (md5Groups docs1) (md5Groups docs2) h'
        else 0)) := by
    apply List.map_congr_left
    intro h' _
    exact countP_leftoverF2 (md5Groups docs1) hg2 h' h
  rw [e1, sum_map_ite_single (sharedKeys_nodup hg1.1) h]
  rw [countP_only_side hg2 (fun pr => !((keysOf (md5Groups docs1)).contains pr.1))
    (fun k => !((keysOf (md5Groups docs1)).contains k)) (fun pr => rfl) h]
  rw [hc1, hc2]
  by_cases h1 : h ∈ keysOf (md5Groups docs1)
  · by_cases h2 : h ∈ keysOf (md5Groups docs2)
    · have hs : h ∈ sharedKeys (md5Groups docs1) (md5Groups docs2) :=
        mem_sharedKeys.2 ⟨h1, h2⟩
      have hq : ¬ (h ∈ keysOf (md5Groups docs2) ∧
          (!((keysOf (md5Groups docs1)).contains h)) = true) := by
        intro hand
        have := hand.2
        simp only [Bool.not_eq_true'] at this
        rw [← Bool.not_eq_true] at this
        exact this (List.elem_iff.2 h1)
      rw [if_pos hs, if_neg hq, Nat.add_zero]
      rfl
    · have hs : h ∉ sharedKeys (md5Groups docs1) (md5Groups docs2) := by
        intro hmem
        exact h2 (mem_sharedKeys.1 hmem).2
      have hq : ¬ (h ∈ keysOf (md5Groups docs2) ∧
          (!((keysOf (md5Groups docs1)).contains h)) = true) := fun hand => h2 hand.1
      rw [if_neg hs, if_neg hq, lookupGroup_of_not_mem h2, List.length_nil]
      simp
  · have hs : h ∉ sharedKeys (md5Groups docs1) (md5Groups docs2) := by
      intro hmem
      exact h1 (mem_sharedKeys.1 hmem).1
    by_cases h2 : h ∈ keysOf (md5Groups docs2)
    · have hq : h ∈ keysOf (md5Groups docs2) ∧
          (!((keysOf (md5Groups docs1)).contains h)) = true := by
        refine ⟨h2, ?_⟩
        simp only [Bool.not_eq_true']
        rw [← Bool.not_eq_true]
        intro hcon
        exact h1 (List.elem_iff.1 hcon)
      rw [if_neg hs, if_pos hq, Nat.zero_add,
        lookupGroup_of_not_mem h1, List.length_nil]
      simp
    · have hq : ¬ (h ∈ keysOf (md5Groups docs2) ∧
          (!((keysOf (md5Groups docs1)).contains h)) = true) := fun hand => h2 hand.1
      rw [if_neg hs, if_neg hq, lookupGroup_of_not_mem h2, List.length_nil]
      simp

theorem parts_perm_g1 (g1 g2 : List (String × List Doc))
    (hwf : GroupsWF (fun d : Doc => d.md5_hash) g1) :
    List.Perm
      ((((sharedKeys g1 g2).map (pairsFor g1 g2)).flatten.map (fun p => p.folder1)) ++
        (((sharedKeys g1 g2).map (leftoverF1 g1 g2)).flatten ++
          ((g1.filter (fun pr => !((keysOf g2).contains pr.1))).map Prod.snd).flatten))
      ((g1.map Prod.snd).flatten) := by
  have e1 : (((sharedKeys g1 g2).map (pairsFor g1 g2)).flatten.map (fun p => p.folder1)) =
      ((sharedKeys g1 g2).map
        (fun h => (lookupGroup g1 h).take (pairCount g1 g2 h))).flatten := by
    rw [List.map_flatten, List.map_map]
    congr 1
    apply List.map_congr_left
    intro h _
    exact pairsFor_map_folder1 g1 g2 h
  rw [e1, ← List.append_assoc]
  have h2 : List.Perm
      (((sharedKeys g1 g2).map
          (fun h => (lookupGroup g1 h).take (pairCount g1 g2 h))).flatten ++
        ((sharedKeys g1 g2).map (leftoverF1 g1 g2)).flatten)
      (((sharedKeys g1 g2).map (lookupGroup g1)).flatten) := by
    refine (flatten_map_append_perm _ _ _).symm.trans ?_
    have e2 : ((sharedKeys g1 g2).map
        (fun h => (lookupGroup g1 h).take (pairCount g1 g2 h) ++ leftoverF1 g1 g2 h)) =
        ((sharedKeys g1 g2).map (lookupGroup g1)) := by
      apply List.map_congr_left
      intro h _
      rw [leftoverF1]
      exact List.take_append_drop _ _
    rw [e2]
  have e3 : ((sharedKeys g1 g2).map (lookupGroup g1)).flatten =
      ((g1.filter (fun pr => (keysOf g2).contains pr.1)).map Prod.snd).flatten := by
    have e4 : sharedKeys g1 g2 =
        (g1.filter (fun pr => (keysOf g2).contains pr.1)).map Prod.fst := by
      rw [sharedKeys]
      simp only [keysOf]
      rw [List.filter_map]
      rfl
    rw [e4, List.map_map]
    congr 1
    apply List.map_congr_left
    intro pr hpr
    exact lookupGroup_of_mem hwf.1 (List.mem_of_mem_filter hpr)
  have h5 : List.Perm
      (((g1.filter (fun pr => (keysOf g2).contains pr.1)).map Prod.snd).flatten ++
        ((g1.filter (fun pr => !((keysOf g2).contains pr.1))).map Prod.snd).flatten)
      ((g1.map Prod.snd).flatten) := by
    rw [← List.flatten_append, ← List.map_append]
    exact ((List.filter_append_perm _ g1).map Prod.snd).flatten
  refine (List.Perm.append_right _ h2).trans ?_
  rw [e3]
  exact h5

theorem parts_perm_g2 (g1 g2 : List (String × List Doc))
    (hwf1 : GroupsWF (fun d : Doc => d.md5_hash) g1)
    (hwf2 : GroupsWF (fun d : Doc => d.md5_hash) g2) :
    List.Perm
      ((((sharedKeys g1 g2).map (pairsFor g1 g2)).flatten.map (fun p => p.folder2)) ++
        (((sharedKeys g1 g2).map (leftoverF2 g1 g2)).flatten ++
          ((g2.filter (fun pr => !((keysOf g1).contains pr.1))).map Prod.snd).flatten))
      ((g2.map Prod.snd).flatten) := by
  have e1 : (((sharedKeys g1 g2).map (pairsFor g1 g2)).flatten.map (fun p => p.folder2)) =
      ((sharedKeys g1 g2).map
        (fun h => (lookupGroup g2 h).take (pairCount g1 g2 h))).flatten := by
    rw [List.map_flatten, List.map_map]
    congr 1
    apply List.map_congr_left
    intro h _
    exact pairsFor_map_folder2 g1 g2 h
  rw [e1, ← List.append_assoc]
  have h2 : List.Perm
      (((sharedKeys g1 g2).map
          (fun h => (lookupGroup g2 h).take (pairCount g1 g2 h))).flatten ++
        ((sharedKeys g1 g2).map (leftoverF2 g1 g2)).flatten)
      (((sharedKeys g1 g2).map (lookupGroup g2)).flatten) := by
    refine (flatten_map_append_perm _ _ _).symm.trans ?_
    have e2 : ((sharedKeys g1 g2).map
        (fun h => (lookupGroup g2 h).take (pairCount g1 g2 h) ++ leftoverF2 g1 g2 h)) =
        ((sharedKeys g1 g2).map (lookupGroup g2)) := by
      apply List.map_congr_left
      intro h _
      rw [leftoverF2]
      exact List.take_append_drop _ _
    rw [e2]
  have hperm : List.Perm (sharedKeys g1 g2)
      ((keysOf g2).filter (fun k => (keysOf g1).contains k)) := by
    apply (List.perm_ext_iff_of_nodup (sharedKeys_nodup hwf1.1) (hwf2.1.filter _)).2
    intro k
    rw [mem_sharedKeys]
    simp [List.mem_filter, List.elem_iff, and_comm]
  have h3 : List.Perm (((sharedKeys g1 g2).map (lookupGroup g2)).flatten)
      ((((keysOf g2).filter (fun k => (keysOf g1).contains k)).map
        (lookupGroup g2)).flatten) :=
    (hperm.map (lookupGroup g2)).flatten
  have e3 : (((keysOf g2).filter (fun k => (keysOf g1).contains k)).map
      (lookupGroup g2)).flatten =
      ((g2.filter (fun pr => (keysOf g1).contains pr.1)).map Prod.snd).flatten := by
    have e4 : (keysOf g2).filter (fun k => (keysOf g1).contains k) =
        (g2.filter (fun pr => (keysOf g1).contains pr.1)).map Prod.fst := by
      simp only [keysOf]
      rw [List.filter_map]
      rfl
    rw [e4, List.map_map]
    congr 1
    apply List.map_congr_left
    intro pr hpr
    exact lookupGroup_of_mem hwf2.1 (List.mem_of_mem_filter hpr)
  have h5 : List.Perm
      (((g2.filter (fun pr => (keysOf g1).contains pr.1)).map Prod.snd).flatten ++
        ((g2.filter (fun pr => !((keysOf g1).contains pr.1))).map Prod.snd).flatten)
      ((g2.map Prod.snd).flatten) := by
    rw [← List.flatten_append, ← List.map_append]
    exact ((List.filter_append_perm _ g2).map Prod.snd).flatten
  refine (List.Perm.append_right _ h2).trans ?_
  refine (List.Perm.append_right _ (h3.trans (e3 ▸ List.Perm.refl _))).trans h5

theorem compareName_partition_f1 (docs1 docs2 : List Doc) :
    List.Perm docs1
      ((compareName docs1 docs2).matched_pairs.map (fun p => p.folder1) ++
        (compareName docs1 docs2).unmatched_f1) := by
  have h := parts_perm_g1 (md5Groups docs1) (md5Groups docs2)
    (groupsWF_groupByKey (fun d : Doc => d.md5_hash) docs1)
  have h2 := flatten_groupByKey_perm (fun d : Doc => d.md5_hash) docs1
  exact (h.trans h2).symm

theorem compareName_partition_f2 (docs1 docs2 : List Doc) :
    List.Perm docs2
      ((compareName docs1 docs2).matched_pairs.map (fun p => p.folder2) ++
        (compareName docs1 docs2).unmatched_f2) := by
  have h := parts_perm_g2 (md5Groups docs1) (md5Groups docs2)
    (groupsWF_groupByKey (fun d : Doc => d.md5_hash) docs1)
    (groupsWF_groupByKey (fun d : Doc => d.md5_hash) docs2)
  have h2 := flatten_groupByKey_perm (fun d : Doc => d.md5_hash) docs2
  exact (h.trans h2).symm

/-! ### Comparison-loop invariants -/

theorem stepName_sideA (g1 g2 : List (String × List Doc)) (st : CompareState)
    (nk : String) :
    List.Perm
      ((stepName g1 g2 st nk).all_matched_pairs.map (fun p => p.folder1) ++
        (stepName g1 g2 st nk).all_unmatched_f1 ++
        (stepName g1 g2 st nk).missing_in_folder2)
      ((st.all_matched_pairs.map (fun p => p.folder1) ++ st.all_unmatched_f1 ++
        st.missing_in_folder2) ++ lookupGroup g1 nk) := by
  simp only [stepName]
  by_cases h2 : (lookupGroup g2 nk).isEmpty
  · simp only [h2, if_true]
    simp [List.append_assoc]
  · simp only [h2, Bool.false_eq_true, if_false]
    by_cases h1 : (lookupGroup g1 nk).isEmpty
    · simp only [h1, if_true]
      simp [List.isEmpty_iff.1 h1]
    · simp only [h1, Bool.false_eq_true, if_false]
      apply List.perm_iff_count.2
      intro a
      have hcn := (compareName_partition_f1 (lookupGroup g1 nk)
        (lookupGroup g2 nk)).count_eq a
      simp only [List.count_append, List.map_append] at hcn ⊢
      omega

theorem stepName_sideB (g1 g2 : List (String × List Doc)) (st : CompareState)
    (nk : String) :
    List.Perm
      ((stepName g1 g2 st nk).all_matched_pairs.map (fun p => p.folder2) ++
        (stepName g1 g2 st nk).all_unmatched_f2 ++
        (stepName g1 g2 st nk).missing_in_folder1)
      ((st.all_matched_pairs.map (fun p => p.folder2) ++ st.all_unmatched_f2 ++
        st.missing_in_folder1) ++ lookupGroup g2 nk) := by
  simp only [stepName]
  by_cases h2 : (lookupGroup g2 nk).isEmpty
  · simp only [h2, if_true]
    simp [List.isEmpty_iff.1 h2]
  · simp only [h2, Bool.false_eq_true, if_false]
    by_cases h1 : (lookupGroup g1 nk).isEmpty
    · simp only [h1, if_true]
      simp [List.append_assoc]
    · simp only [h1, Bool.false_eq_true, if_false]
      apply List.perm_iff_count.2
      intro a
      have hcn := (compareName_partition_f2 (lookupGroup g1 nk)
        (lookupGroup g2 nk)).count_eq a
      simp only [List.count_append, List.map_append] at hcn ⊢
      omega

theorem foldl_sideA (g1 g2 : List (String × List Doc)) (N : List String)
    (st : CompareState) :
    List.Perm
      ((N.foldl (stepName g1 g2) st).all_matched_pairs.map (fun p => p.folder1) ++
        (N.foldl (stepName g1 g2) st).all_unmatched_f1 ++
        (N.foldl (stepName g1 g2) st).missing_in_folder2)
      ((st.all_matched_pairs.map (fun p => p.folder1) ++ st.all_unmatched_f1 ++
        st.missing_in_folder2) ++ (N.map (lookupGroup g1)).flatten) := by
  induction N generalizing st with
  | nil => simp
  | cons n rest ih =>
    have h1 := ih (stepName g1 g2 st n)
    have h2 := (stepName_sideA g1 g2 st n).append_right
      ((rest.map (lookupGroup g1)).flatten)
    refine (h1.trans h2).trans ?_
    simp [List.append_assoc]

theorem foldl_sideB (g1 g2 : List (String × List Doc)) (N : List String)
    (st : CompareState) :
    List.Perm
      ((N.foldl (stepName g1 g2) st).all_matched_pairs.map (fun p => p.folder2) ++
        (N.foldl (stepName g1 g2) st).all_unmatched_f2 ++
        (N.foldl (stepName g1 g2) st).missing_in_folder1)
      ((st.all_matched_pairs.map (fun p => p.folder2) ++ st.all_unmatched_f2 ++
        st.missing_in_folder1) ++ (N.map (lookupGroup g2)).flatten) := by
  induction N generalizing st with
  | nil => simp
  | cons n rest ih =>
    have h1 := ih (stepName g1 g2 st n)
    have h2 := (stepName_sideB g1 g2 st n).append_right
      ((rest.map (lookupGroup g2)).flatten)
    refine (h1.trans h2).trans ?_
    simp [List.append_assoc]

theorem flatten_lookup_names {α : Type} {kf : α → String}
    {g : List (String × List α)} (hwf : GroupsWF kf g)
    (N : List String) (hN : N.Nodup) (hsub : ∀ k ∈ keysOf g, k ∈ N) :
    List.Perm ((N.map (lookupGroup g)).flatten) ((g.map Prod.snd).flatten) := by
  have h0 : List.Perm N
      (N.filter (fun k => decide (k ∈ keysOf g)) ++
        N.filter (fun k => !decide (k ∈ keysOf g))) :=
    (List.filter_append_perm _ N).symm
  have hmap := (h0.map (lookupGroup g)).flatten
  rw [List.map_append, List.flatten_append] at hmap
  have hnil : ((N.filter (fun k => !decide (k ∈ keysOf g))).map
      (lookupGroup g)).flatten = [] := by
    apply flatten_map_eq_nil
    intro k hk
    apply lookupGroup_of_not_mem
    have := (List.mem_filter.1 hk).2
    simpa using this
  rw [hnil, List.append_nil] at hmap
  have hperm : List.Perm (N.filter (fun k => decide (k ∈ keysOf g))) (keysOf g) := by
    apply (List.perm_ext_iff_of_nodup (hN.filter _) hwf.1).2
    intro k
    simp only [List.mem_filter, decide_eq_true_eq]
    constructor
    · exact fun h => h.2
    · exact fun h => ⟨hsub k h, h⟩
  have h2 := (hperm.map (lookupGroup g)).flatten
  rw [map_lookup_keys hwf.1] at h2
  exact hmap.trans h2

theorem comparedNames_nodup (files1 files2 : List Doc) :
    (comparedNames files1 files2).Nodup :=
  nodup_sortStrings (List.nodup_dedup _)

theorem mem_comparedNames {files1 files2 : List Doc} {k : String} :
    k ∈ comparedNames files1 files2 ↔
      k ∈ keysOf (nameGroups files1) ∨ k ∈ keysOf (nameGroups files2) := by
  rw [comparedNames, mem_sortStrings, List.mem_dedup, List.mem_append]

theorem analyze_partition_f1 (files1 files2 : List Doc) (clock : Nat → Int) :
    List.Perm files1
      ((analyze_folder_sync files1 files2 clock).all_matched_pairs.map
          (fun p => p.folder1) ++
        (analyze_folder_sync files1 files2 clock).all_unmatched_f1 ++
        (analyze_folder_sync files1 files2 clock).missing_in_folder2) := by
  have hwf : GroupsWF (fun d : Doc => basename d.file_path) (nameGroups files1) :=
    groupsWF_groupByKey _ files1
  have h1 := foldl_sideA (nameGroups files1) (nameGroups files2)
    (comparedNames files1 files2) initCompare
  simp only [initCompare, List.map_nil, List.nil_append, List.append_nil] at h1
  have h2 := flatten_lookup_names hwf (comparedNames files1 files2)
    (comparedNames_nodup files1 files2)
    (fun k hk => mem_comparedNames.2 (Or.inl hk))
  have h3 := flatten_groupByKey_perm (fun d : Doc => basename d.file_path) files1
  have h4 := (h1.trans (h2.trans h3)).symm
  simpa only [analyze_folder_sync] using h4

theorem analyze_partition_f2 (files1 files2 : List Doc) (clock : Nat → Int) :
    List.Perm files2
      ((analyze_folder_sync files1 files2 clock).all_matched_pairs.map
          (fun p => p.folder2) ++
        (analyze_folder_sync files1 files2 clock).all_unmatched_f2 ++
        (analyze_folder_sync files1 files2 clock).missing_in_folder1) := by
  have hwf : GroupsWF (fun d : Doc => basename d.file_path) (nameGroups files2) :=
    groupsWF_groupByKey _ files2
  have h1 := foldl_sideB (nameGroups files1) (nameGroups files2)
    (comparedNames files1 files2) initCompare
  simp only [initCompare, List.map_nil, List.nil_append, List.append_nil] at h1
  have h2 := flatten_lookup_names hwf (comparedNames files1 files2)
    (comparedNames_nodup files1 files2)
    (fun k hk => mem_comparedNames.2 (Or.inr hk))
  have h3 := flatten_groupByKey_perm (fun d : Doc => basename d.file_path) files2
  have h4 := (h1.trans (h2.trans h3)).symm
  simpa only [analyze_folder_sync] using h4

theorem stepName_unmatched_in_dups (g1 g2 : List (String × List Doc))
    (st : CompareState) (nk : String)
    (hA : ∀ d ∈ st.all_unmatched_f1, ∃ g ∈ st.duplicates, d ∈ g.folder1_docs)
    (hB : ∀ d ∈ st.all_unmatched_f2, ∃ g ∈ st.duplicates, d ∈ g.folder2_docs) :
    (∀ d ∈ (stepName g1 g2 st nk).all_unmatched_f1,
      ∃ g ∈ (stepName g1 g2 st nk).duplicates, d ∈ g.folder1_docs) ∧
    (∀ d ∈ (stepName g1 g2 st nk).all_unmatched_f2,
      ∃ g ∈ (stepName g1 g2 st nk).duplicates, d ∈ g.folder2_docs) := by
  simp only [stepName]
  by_cases h2 : (lookupGroup g2 nk).isEmpty
  · simp only [h2, if_true]
    exact ⟨hA, hB⟩
  · simp only [h2, Bool.false_eq_true, if_false]
    by_cases h1 : (lookupGroup g1 nk).isEmpty
    · simp only [h1, if_true]
      exact ⟨hA, hB⟩
    · simp only [h1, Bool.false_eq_true, if_false]
      have hsub : ∀ g ∈ st.duplicates,
          g ∈ (if (compareName (lookupGroup g1 nk) (lookupGroup g2 nk)).unmatched_f1.length +
              (compareName (lookupGroup g1 nk) (lookupGroup g2 nk)).unmatched_f2.length > 0 then
            st.duplicates ++
              [⟨nk,
                if (compareName (lookupGroup g1 nk) (lookupGroup g2 nk)).unmatched_f1.isEmpty then
                  lookupGroup g1 nk
                else (compareName (lookupGroup g1 nk) (lookupGroup g2 nk)).unmatched_f1,
                if (compareName (lookupGroup g1 nk) (lookupGroup g2 nk)).unmatched_f2.isEmpty then
                  lookupGroup g2 nk
                else (compareName (lookupGroup g1 nk) (lookupGroup g2 nk)).unmatched_f2,
                (compareName (lookupGroup g1 nk) (lookupGroup g2 nk)).matched_pairs⟩]
          else st.duplicates) := by
        intro g hg
        split
        · exact List.mem_append_left _ hg
        · exact hg
      constructor
      · intro d hd
        rcases List.mem_append.1 hd with hold | hnew
        · obtain ⟨g, hg, hdg⟩ := hA d hold
          exact ⟨g, hsub g hg, hdg⟩
        · have hne : (compareName (lookupGroup g1 nk) (lookupGroup g2 nk)).unmatched_f1 ≠ [] :=
            fun he => by rw [he] at hnew; exact (List.not_mem_nil d) hnew
          have hlen : (compareName (lookupGroup g1 nk) (lookupGroup g2 nk)).unmatched_f1.length +
              (compareName (lookupGroup g1 nk) (lookupGroup g2 nk)).unmatched_f2.length > 0 := by
            have := List.length_pos.2 hne
            omega
          refine ⟨⟨nk,
            if (compareName (lookupGroup g1 nk) (lookupGroup g2 nk)).unmatched_f1.isEmpty then
              lookupGroup g1 nk
            else (compareName (lookupGroup g1 nk) (lookupGroup g2 nk)).unmatched_f1,
            if (compareName (lookupGroup g1 nk) (lookupGroup g2 nk)).unmatched_f2.isEmpty then
              lookupGroup g2 nk
            else (compareName (lookupGroup g1 nk) (lookupGroup g2 nk)).unmatched_f2,
            (compareName (lookupGroup g1 nk) (lookupGroup g2 nk)).matched_pairs⟩, ?_, ?_⟩
          · rw [if_pos hlen]
            exact List.mem_append_right _ (List.mem_singleton.2 rfl)
          · have hif : ((compareName (lookupGroup g1 nk) (lookupGroup g2 nk)).unmatched_f1.isEmpty) = false := by
              rw [Bool.eq_false_iff]
              intro he
              exact hne (List.isEmpty_iff.1 he)
            simp only [hif, Bool.false_eq_true, if_false]
            exact hnew
      · intro d hd
        rcases List.mem_append.1 hd with hold | hnew
        · obtain ⟨g, hg, hdg⟩ := hB d hold
          exact ⟨g, hsub g hg, hdg⟩
        · have hne : (compareName (lookupGroup g1 nk) (lookupGroup g2 nk)).unmatched_f2 ≠ [] :=
            fun he => by rw [he] at hnew; exact (List.not_mem_nil d) hnew
          have hlen : (compareName (lookupGroup g1 nk) (lookupGroup g2 nk)).unmatched_f1.length +
              (compareName (lookupGroup g1 nk) (lookupGroup g2 nk)).unmatched_f2.length > 0 := by
            have := List.length_pos.2 hne
            omega
          refine ⟨⟨nk,
            if (compareName (lookupGroup g1 nk) (lookupGroup g2 nk)).unmatched_f1.isEmpty then
              lookupGroup g1 nk
            else (compareName (lookupGroup g1 nk) (lookupGroup g2 nk)).unmatched_f1,
            if (compareName (lookupGroup g1 nk) (lookupGroup g2 nk)).unmatched_f2.isEmpty then
              lookupGroup g2 nk
            else (compareName (lookupGroup g1 nk) (lookupGroup g2 nk)).unmatched_f2,
            (compareName (lookupGroup g1 nk) (lookupGroup g2 nk)).matched_pairs⟩, ?_, ?_⟩
          · rw [if_pos hlen]
            exact List.mem_append_right _ (List.mem_singleton.2 rfl)
          · have hif : ((compareName (lookupGroup g1 nk) (lookupGroup g2 nk)).unmatched_f2.isEmpty) = false := by
              rw [Bool.eq_false_iff]
              intro he
              exact hne (List.isEmpty_iff.1 he)
            simp only [hif, Bool.false_eq_true, if_false]
            exact hnew

theorem foldl_unmatched_in_dups (g1 g2 : List (String × List Doc)) (N : List String)
    (st : CompareState)
    (hA : ∀ d ∈ st.all_unmatched_f1, ∃ g ∈ st.duplicates, d ∈ g.folder1_docs)
    (hB : ∀ d ∈ st.all_unmatched_f2, ∃ g ∈ st.duplicates, d ∈ g.folder2_docs) :
    (∀ d ∈ (N.foldl (stepName g1 g2) st).all_unmatched_f1,
      ∃ g ∈ (N.foldl (stepName g1 g2) st).duplicates, d ∈ g.folder1_docs) ∧
    (∀ d ∈ (N.foldl (stepName g1 g2) st).all_unmatched_f2,
      ∃ g ∈ (N.foldl (stepName g1 g2) st).duplicates, d ∈ g.folder2_docs) := by
  induction N generalizing st with
  | nil => exact ⟨hA, hB⟩
  | cons n rest ih =>
    have hstep := stepName_unmatched_in_dups g1 g2 st n hA hB
    exact ih (stepName g1 g2 st n) hstep.1 hstep.2

/-! ### Counter-dict lemmas and the matched-by-name invariant -/

theorem lookupCount_bumpAssoc (c : List (String × Nat)) (k : String) (v : Nat)
    (k' : String) :
    lookupCount (bumpAssoc c k v) k' =
      lookupCount c k' + if k = k' then v else 0 := by
  induction c with
  | nil =>
    by_cases hk : k = k'
    · subst hk
      simp [bumpAssoc, lookupCount, List.find?]
    · have : ¬ (k == k') = true := by simp [beq_iff_eq, hk]
      simp [bumpAssoc, lookupCount, List.find?, this, hk]
  | cons pr rest ih =>
    obtain ⟨k0, v0⟩ := pr
    by_cases h0 : k0 = k
    · subst h0
      simp only [bumpAssoc, eq_self_iff_true, if_true]
      by_cases hk : k0 = k'
      · subst hk
        simp [lookupCount, List.find?]
      · have : ¬ (k0 == k') = true := by simp [beq_iff_eq, hk]
        simp [lookupCount, List.find?, this, hk]
    · simp only [bumpAssoc, if_neg h0]
      by_cases hk : k0 = k'
      · subst hk
        have hnk : ¬ k = k0 := fun he => h0 he.symm
        simp [lookupCount, List.find?, hnk]
      · have : ¬ (k0 == k') = true := by simp [beq_iff_eq, hk]
        simp only [lookupCount, List.find?, this]
        exact ih

theorem lookupCount_bumpMany (c : List (String × Nat)) (l : List (String × Nat))
    (h : String) :
    lookupCount (bumpMany c l) h =
      lookupCount c h + ((l.filter (fun pr => pr.1 == h)).map Prod.snd).sum := by
  induction l generalizing c with
  | nil => simp [bumpMany]
  | cons pr rest ih =>
    have hstep : bumpMany c (pr :: rest) = bumpMany (bumpAssoc c pr.1 pr.2) rest := rfl
    rw [hstep, ih, lookupCount_bumpAssoc]
    by_cases hk : pr.1 = h
    · have hb : (pr.1 == h) = true := beq_iff_eq.2 hk
      simp only [List.filter_cons, hk, beq_self_eq_true, if_true, List.map_cons,
        List.sum_cons]
      omega
    · have hb : ¬ (pr.1 == h) = true := by simp [beq_iff_eq, hk]
      simp [List.filter_cons, hb, hk]

theorem filter_beq_of_nodup {l : List String} (hnd : l.Nodup) (h : String) :
    l.filter (fun x => x == h) = if h ∈ l then [h] else [] := by
  induction l with
  | nil => simp
  | cons x rest ih =>
    rw [List.nodup_cons] at hnd
    by_cases hx : x = h
    · subst hx
      have hb : (x == x) = true := beq_iff_eq.2 rfl
      simp only [List.filter_cons, hb, if_true, List.mem_cons, true_or]
      rw [ih hnd.2, if_neg hnd.1]
    · have hb : ¬ (x == h) = true := by simp [beq_iff_eq, hx]
      simp only [List.filter_cons, hb, Bool.false_eq_true, if_false]
      rw [ih hnd.2]
      by_cases hm : h ∈ rest
      · simp [hm, Ne.symm hx]
      · simp [hm, Ne.symm hx]

theorem sum_filter_keyed {l : List String} (hnd : l.Nodup) (f : String → Nat)
    (h : String) :
    ((((l.map (fun x => (x, f x))).filter (fun pr => pr.1 == h)).map Prod.snd).sum) =
      if h ∈ l then f h else 0 := by
  rw [List.filter_map]
  have e : ((fun pr : String × Nat => pr.1 == h) ∘ (fun x => (x, f x))) =
      (fun x => x == h) := rfl
  rw [e, List.map_map]
  have e2 : ((Prod.snd ∘ fun x => (x, f x)) : String → Nat) = f := rfl
  rw [e2, filter_beq_of_nodup hnd h]
  by_cases hm : h ∈ l
  · simp [hm]
  · simp [hm]

theorem countP_matched_eq_ite (docs1 docs2 : List Doc) (h : String) :
    (compareName docs1 docs2).matched_pairs.countP (fun p => p.md5 == h) =
      if h ∈ sharedKeys (md5Groups docs1) (md5Groups docs2) then
        pairCount (md5Groups docs1) (md5Groups docs2) h
      else 0 := by
  have hg1 : GroupsWF (fun d : Doc => d.md5_hash) (md5Groups docs1) :=
    groupsWF_groupByKey (fun d : Doc => d.md5_hash) docs1
  simp only [compareName]
  rw [List.countP_flatten, List.map_map]
  have e1 : ((sharedKeys (md5Groups docs1) (md5Groups docs2)).map
      ((List.countP (fun p => p.md5 == h)) ∘ (pairsFor (md5Groups docs1) (md5Groups docs2)))) =
      ((sharedKeys (md5Groups docs1) (md5Groups docs2)).map
        (fun h' => if h' = h then pairCount (md5Groups docs1) (md5Groups docs2) h' else 0)) := by
    apply List.map_congr_left
    intro h' _
    exact countP_pairsFor _ _ h' h
  rw [e1, sum_map_ite_single (sharedKeys_nodup hg1.1) h]

theorem stepName_matchedByName (g1 g2 : List (String × List Doc))
    (st : CompareState) (nk : String) (h : String)
    (hinv : lookupCount st.matchedByName h =
      st.all_matched_pairs.countP (fun p => p.md5 == h)) :
    lookupCount (stepName g1 g2 st nk).matchedByName h =
      (stepName g1 g2 st nk).all_matched_pairs.countP (fun p => p.md5 == h) := by
  simp only [stepName]
  by_cases h2 : (lookupGroup g2 nk).isEmpty
  · simp only [h2, if_true]
    exact hinv
  · simp only [h2, Bool.false_eq_true, if_false]
    by_cases h1 : (lookupGroup g1 nk).isEmpty
    · simp only [h1, if_true]
      exact hinv
    · simp only [h1, Bool.false_eq_true, if_false]
      rw [List.countP_append, lookupCount_bumpMany, hinv]
      congr 1
      have hg1 : GroupsWF (fun d : Doc => d.md5_hash)
          (md5Groups (lookupGroup g1 nk)) :=
        groupsWF_groupByKey (fun d : Doc => d.md5_hash) (lookupGroup g1 nk)
      have e : (compareName (lookupGroup g1 nk) (lookupGroup g2 nk)).per_md5 =
          ((sharedKeys (md5Groups (lookupGroup g1 nk)) (md5Groups (lookupGroup g2 nk))).map
            (fun h' => (h', pairCount (md5Groups (lookupGroup g1 nk))
              (md5Groups (lookupGroup g2 nk)) h'))) := rfl
      rw [e, sum_filter_keyed (sharedKeys_nodup hg1.1) _ h,
        countP_matched_eq_ite]

theorem foldl_matchedByName (g1 g2 : List (String × List Doc)) (N : List String)
    (st : CompareState) (h : String)
    (hinv : lookupCount st.matchedByName h =
      st.all_matched_pairs.countP (fun p => p.md5 == h)) :
    lookupCount (N.foldl (stepName g1 g2) st).matchedByName h =
      (N.foldl (stepName g1 g2) st).all_matched_pairs.countP (fun p => p.md5 == h) := by
  induction N generalizing st with
  | nil => exact hinv
  | cons n rest ih =>
    exact ih (stepName g1 g2 st n) (stepName_matchedByName g1 g2 st n h hinv)

theorem lookupCount_md5_inner (docs : List Doc) (acc : List (String × Nat))
    (h : String) :
    lookupCount (docs.foldl (fun a d => bumpAssoc a d.md5_hash 1) acc) h =
      lookupCount acc h + docs.countP (fun d => d.md5_hash == h) := by
  induction docs generalizing acc with
  | nil => simp
  | cons d rest ih =>
    have hstep : (d :: rest).foldl (fun a d => bumpAssoc a d.md5_hash 1) acc =
        rest.foldl (fun a d => bumpAssoc a d.md5_hash 1) (bumpAssoc acc d.md5_hash 1) := rfl
    rw [hstep, ih, lookupCount_bumpAssoc, List.countP_cons]
    by_cases hk : d.md5_hash = h
    · simp only [hk, eq_self_iff_true, if_true, beq_self_eq_true]
      omega
    · have hb : ¬ (d.md5_hash == h) = true := by simp [beq_iff_eq, hk]
      simp only [hk, if_false, hb, Bool.false_eq_true]
      omega

theorem lookupCount_md5CountsOf (g : List (String × List Doc)) (h : String) :
    lookupCount (md5CountsOf g) h =
      ((g.map Prod.snd).flatten).countP (fun d => d.md5_hash == h) := by
  have hgen : ∀ (gg : List (String × List Doc)) (acc : List (String × Nat)),
      lookupCount (gg.foldl
        (fun acc pr => pr.2.foldl (fun a d => bumpAssoc a d.md5_hash 1) acc) acc) h =
        lookupCount acc h + ((gg.map Prod.snd).flatten).countP (fun d => d.md5_hash == h) := by
    intro gg
    induction gg with
    | nil => simp
    | cons pr rest ih =>
      intro acc
      have hstep : ((pr :: rest).foldl
          (fun acc pr => pr.2.foldl (fun a d => bumpAssoc a d.md5_hash 1) acc) acc) =
          (rest.foldl (fun acc pr => pr.2.foldl (fun a d => bumpAssoc a d.md5_hash 1) acc)
            (pr.2.foldl (fun a d => bumpAssoc a d.md5_hash 1) acc)) := rfl
      rw [hstep, ih, lookupCount_md5_inner]
      simp only [List.map_cons, List.flatten_cons, List.countP_append]
      omega
  have h00 : lookupCount ([] : List (String × Nat)) h = 0 := rfl
  rw [md5CountsOf, hgen g [], h00, Nat.zero_add]

theorem suspectedOf_spec (g1 g2 : List (String × List Doc))
    (matched : List (String × Nat)) :
    ∀ s ∈ suspectedOf g1 g2 matched,
      s.count_pairs =
        min (lookupCount (md5CountsOf g1) s.md5) (lookupCount (md5CountsOf g2) s.md5) -
          lookupCount matched s.md5 ∧
      0 < s.count_pairs ∧
      ∀ n ∈ s.folder1_names, n ∉ s.folder2_names := by
  rw [suspectedOf]
  have hgen : ∀ (L : List String) (acc : List Suspected),
      (∀ s ∈ acc,
        s.count_pairs =
          min (lookupCount (md5CountsOf g1) s.md5) (lookupCount (md5CountsOf g2) s.md5) -
            lookupCount matched s.md5 ∧
        0 < s.count_pairs ∧
        ∀ n ∈ s.folder1_names, n ∉ s.folder2_names) →
      ∀ s ∈ L.foldl
        (fun acc h =>
          let remaining := min (lookupCount (md5CountsOf g1) h)
            (lookupCount (md5CountsOf g2) h) - lookupCount matched h
          if remaining > 0 then
            let names1 := lookupNames (namesByMd5 g1) h
            let names2 := lookupNames (namesByMd5 g2) h
            if names1.all (fun n => !(names2.contains n)) then
              acc ++ [⟨h, sortStrings names1, sortStrings names2, remaining⟩]
            else acc
          else acc) acc,
        s.count_pairs =
          min (lookupCount (md5CountsOf g1) s.md5) (lookupCount (md5CountsOf g2) s.md5) -
            lookupCount matched s.md5 ∧
        0 < s.count_pairs ∧
        ∀ n ∈ s.folder1_names, n ∉ s.folder2_names := by
    intro L
    induction L with
    | nil => intro acc hacc s hs; exact hacc s hs
    | cons h0 rest ih =>
      intro acc hacc s hs
      refine ih _ ?_ s hs
      intro t ht
      by_cases hrem : min (lookupCount (md5CountsOf g1) h0)
          (lookupCount (md5CountsOf g2) h0) - lookupCount matched h0 > 0
      · simp only [hrem, if_true] at ht
        by_cases hdisj : ((lookupNames (namesByMd5 g1) h0).all
            (fun n => !((lookupNames (namesByMd5 g2) h0).contains n))) = true
        · simp only [hdisj, if_true] at ht
          rcases List.mem_append.1 ht with hold | hnew
          · exact hacc t hold
          · have ht2 : t = ⟨h0, sortStrings (lookupNames (namesByMd5 g1) h0),
                sortStrings (lookupNames (namesByMd5 g2) h0),
                min (lookupCount (md5CountsOf g1) h0) (lookupCount (md5CountsOf g2) h0) -
                  lookupCount matched h0⟩ := List.mem_singleton.1 hnew
            subst ht2
            refine ⟨rfl, hrem, ?_⟩
            intro n hn hn2
            have hn' : n ∈ lookupNames (namesByMd5 g1) h0 := mem_sortStrings.1 hn
            have hn2' : n ∈ lookupNames (namesByMd5 g2) h0 := mem_sortStrings.1 hn2
            have := (List.all_eq_true.1 hdisj) n hn'
            simp only [Bool.not_eq_true'] at this
            rw [← Bool.not_eq_true] at this
            exact this (List.elem_iff.2 hn2')
        · simp only [hdisj, Bool.false_eq_true, if_false] at ht
          exact hacc t ht
      · simp only [hrem, if_false] at ht
        exact hacc t ht
  intro s hs
  exact hgen _ [] (by simp) s hs

/-! ### Progress-trace lemmas -/

/-- Scanned counters of the counter-carrying snapshots of a trace, in
emission order. -/
def scannedSeq (tr : List Payload) : List Nat :=
  tr.filterMap (fun p => match p with
    | Payload.snapshot _ s _ _ => some s
    | Payload.rawScan => none)

/-- Boolean check that a sequence of counters never decreases. -/
def nonDecreasingB : List Nat → Bool
  | [] => true
  | [_] => true
  | a :: b :: rest => decide (a ≤ b) && nonDecreasingB (b :: rest)

theorem scannedSeq_append (t1 t2 : List Payload) :
    scannedSeq (t1 ++ t2) = scannedSeq t1 ++ scannedSeq t2 := by
  simp [scannedSeq, List.filterMap_append]

theorem nonDecreasingB_append_single {l : List Nat} {x : Nat}
    (h1 : nonDecreasingB l = true) (h2 : ∀ y ∈ l, y ≤ x) :
    nonDecreasingB (l ++ [x]) = true := by
  induction l with
  | nil => simp [nonDecreasingB]
  | cons a rest ih =>
    cases rest with
    | nil =>
      have := h2 a (by simp)
      simp [nonDecreasingB, this]
    | cons b rest2 =>
      have h1' : (decide (a ≤ b) && nonDecreasingB (b :: rest2)) = true := h1
      rw [Bool.and_eq_true] at h1'
      have hrec := ih h1'.2 (fun y hy => h2 y (List.mem_cons_of_mem a hy))
      show (decide (a ≤ b) && nonDecreasingB ((b :: rest2) ++ [x])) = true
      rw [Bool.and_eq_true]
      exact ⟨h1'.1, hrec⟩

theorem emitCall_inv (clock : Nat → Int) (phase : String)
    (scanned equals needs : Nat) (st : EmitState)
    (hst : ∀ ph s e n, Payload.snapshot ph s e n ∈ st.trace → s = e + n) :
    ∀ ph s e n,
      Payload.snapshot ph s e n ∈ (emitCall clock phase scanned equals needs st).trace →
        s = e + n := by
  intro ph s e n hmem
  unfold emitCall at hmem
  split at hmem
  · simp only [List.mem_append] at hmem
    rcases hmem with hold | hnew
    · exact hst ph s e n hold
    · simp only [List.mem_singleton, Payload.snapshot.injEq] at hnew
      obtain ⟨_, hs, he, hn⟩ := hnew
      rw [hs, he, hn]
  · exact hst ph s e n hmem

theorem scanLoop_inv (clock : Nat → Int) (phase : String) (base n : Nat)
    (st : EmitState)
    (hst : ∀ ph s e nn, Payload.snapshot ph s e nn ∈ st.trace → s = e + nn) :
    ∀ ph s e nn,
      Payload.snapshot ph s e nn ∈ (scanLoop clock phase base n st).trace →
        s = e + nn := by
  rw [scanLoop]
  generalize (List.range n) = L
  induction L generalizing st with
  | nil => exact hst
  | cons i rest ih =>
    simp only [List.foldl_cons]
    by_cases hc : (i % 10 == 0 || i == n - 1) = true
    · rw [if_pos hc]
      exact ih _ (emitCall_inv clock phase (base + i + 1) 0 0 st hst)
    · rw [if_neg hc]
      exact ih _ hst

theorem scanPhase_inv (clock : Nat → Int) (n1 n2 : Nat) :
    ∀ ph s e n, Payload.snapshot ph s e n ∈ (scanPhase clock n1 n2).trace →
      s = e + n := by
  rw [scanPhase]
  have h0 : ∀ ph s e n,
      Payload.snapshot ph s e n ∈ (⟨1, clock 0 - 1, []⟩ : EmitState).trace →
        s = e + n := by
    intro ph s e n hmem
    simp at hmem
  have h1 := emitCall_inv clock "starting" 0 0 0 _ h0
  have h2 : ∀ ph s e n, Payload.snapshot ph s e n ∈
      ({ emitCall clock "starting" 0 0 0 ⟨1, clock 0 - 1, []⟩ with
        trace := (emitCall clock "starting" 0 0 0 ⟨1, clock 0 - 1, []⟩).trace ++
          [Payload.rawScan] } : EmitState).trace → s = e + n := by
    intro ph s e n hmem
    simp only [List.mem_append] at hmem
    rcases hmem with hold | hnew
    · exact h1 ph s e n hold
    · simp at hnew
  have h3 := scanLoop_inv clock "scan_folder1" 0 n1 _ h2
  have h4 := emitCall_inv clock "scan_folder1" n1 0 0 _ h3
  have h5 : ∀ ph s e n, Payload.snapshot ph s e n ∈
      ({ emitCall clock "scan_folder1" n1 0 0
          (scanLoop clock "scan_folder1" 0 n1
            { emitCall clock "starting" 0 0 0 ⟨1, clock 0 - 1, []⟩ with
              trace := (emitCall clock "starting" 0 0 0 ⟨1, clock 0 - 1, []⟩).trace ++
                [Payload.rawScan] }) with
        trace := (emitCall clock "scan_folder1" n1 0 0
          (scanLoop clock "scan_folder1" 0 n1
            { emitCall clock "starting" 0 0 0 ⟨1, clock 0 - 1, []⟩ with
              trace := (emitCall clock "starting" 0 0 0 ⟨1, clock 0 - 1, []⟩).trace ++
                [Payload.rawScan] })).trace ++ [Payload.rawScan] } : EmitState).trace →
      s = e + n := by
    intro ph s e n hmem
    simp only [List.mem_append] at hmem
    rcases hmem with hold | hnew
    · exact h4 ph s e n hold
    · simp at hnew
  have h6 := scanLoop_inv clock "scan_folder2" n1 n2 _ h5
  exact emitCall_inv clock "scan_folder2" (n1 + n2) 0 0 _ h6

theorem stepName_ctrace_inv (g1 g2 : List (String × List Doc)) (st : CompareState)
    (nk : String)
    (hst : ∀ ph s e n, Payload.snapshot ph s e n ∈ st.ctrace → s = e + n) :
    ∀ ph s e n, Payload.snapshot ph s e n ∈ (stepName g1 g2 st nk).ctrace →
      s = e + n := by
  intro ph s e n hmem
  simp only [stepName] at hmem
  by_cases h2 : (lookupGroup g2 nk).isEmpty
  · simp only [h2, if_true, List.mem_append] at hmem
    rcases hmem with hold | hnew
    · exact hst ph s e n hold
    · simp only [List.mem_singleton, Payload.snapshot.injEq] at hnew
      obtain ⟨_, hs, he, hn⟩ := hnew
      rw [hs, he, hn]
  · simp only [h2, Bool.false_eq_true, if_false] at hmem
    by_cases h1 : (lookupGroup g1 nk).isEmpty
    · simp only [h1, if_true, List.mem_append] at hmem
      rcases hmem with hold | hnew
      · exact hst ph s e n hold
      · simp only [List.mem_singleton, Payload.snapshot.injEq] at hnew
        obtain ⟨_, hs, he, hn⟩ := hnew
        rw [hs, he, hn]
    · simp only [h1, Bool.false_eq_true, if_false, List.mem_append] at hmem
      rcases hmem with hold | hnew
      · exact hst ph s e n hold
      · simp only [List.mem_singleton, Payload.snapshot.injEq] at hnew
        obtain ⟨_, hs, he, hn⟩ := hnew
        rw [hs, he, hn]

theorem foldl_ctrace_inv (g1 g2 : List (String × List Doc)) (N : List String)
    (st : CompareState)
    (hst : ∀ ph s e n, Payload.snapshot ph s e n ∈ st.ctrace → s = e + n) :
    ∀ ph s e n,
      Payload.snapshot ph s e n ∈ (N.foldl (stepName g1 g2) st).ctrace →
        s = e + n := by
  induction N generalizing st with
  | nil => exact hst
  | cons n0 rest ih =>
    exact ih (stepName g1 g2 st n0) (stepName_ctrace_inv g1 g2 st n0 hst)

theorem stepName_counts_mono (g1 g2 : List (String × List Doc)) (st : CompareState)
    (nk : String) :
    st.equals_by_name_count + st.uniques_count ≤
      (stepName g1 g2 st nk).equals_by_name_count +
        (stepName g1 g2 st nk).uniques_count := by
  simp only [stepName]
  by_cases h2 : (lookupGroup g2 nk).isEmpty
  · simp only [h2, if_true]
    omega
  · simp only [h2, Bool.false_eq_true, if_false]
    by_cases h1 : (lookupGroup g1 nk).isEmpty
    · simp only [h1, if_true]
      omega
    · simp only [h1, Bool.false_eq_true, if_false]
      omega

theorem stepName_ctrace_mono (g1 g2 : List (String × List Doc)) (st : CompareState)
    (nk : String)
    (hmono : nonDecreasingB (scannedSeq st.ctrace) = true)
    (hbound : ∀ y ∈ scannedSeq st.ctrace,
      y ≤ st.equals_by_name_count + st.uniques_count) :
    nonDecreasingB (scannedSeq (stepName g1 g2 st nk).ctrace) = true ∧
    ∀ y ∈ scannedSeq (stepName g1 g2 st nk).ctrace,
      y ≤ (stepName g1 g2 st nk).equals_by_name_count +
        (stepName g1 g2 st nk).uniques_count := by
  have hm := stepName_counts_mono g1 g2 st nk
  simp only [stepName] at hm ⊢
  by_cases h2 : (lookupGroup g2 nk).isEmpty
  · simp only [h2, if_true] at hm ⊢
    rw [scannedSeq_append]
    constructor
    · apply nonDecreasingB_append_single hmono
      intro y hy
      have := hbound y hy
      omega
    · intro y hy
      rcases List.mem_append.1 hy with hold | hnew
      · have := hbound y hold
        omega
      · simp only [scannedSeq, List.filterMap_cons, List.filterMap_nil] at hnew
        simp at hnew
        omega
  · simp only [h2, Bool.false_eq_true, if_false] at hm ⊢
    by_cases h1 : (lookupGroup g1 nk).isEmpty
    · simp only [h1, if_true] at hm ⊢
      rw [scannedSeq_append]
      constructor
      · apply nonDecreasingB_append_single hmono
        intro y hy
        have := hbound y hy
        omega
      · intro y hy
        rcases List.mem_append.1 hy with hold | hnew
        · have := hbound y hold
          omega
        · simp only [scannedSeq, List.filterMap_cons, List.filterMap_nil] at hnew
          simp at hnew
          omega
    · simp only [h1, Bool.false_eq_true, if_false] at hm ⊢
      rw [scannedSeq_append]
      constructor
      · apply nonDecreasingB_append_single hmono
        intro y hy
        have := hbound y hy
        omega
      · intro y hy
        rcases List.mem_append.1 hy with hold | hnew
        · have := hbound y hold
          omega
        · simp only [scannedSeq, List.filterMap_cons, List.filterMap_nil] at hnew
          simp at hnew
          omega

theorem foldl_ctrace_mono (g1 g2 : List (String × List Doc)) (N : List String)
    (st : CompareState)
    (hmono : nonDecreasingB (scannedSeq st.ctrace) = true)
    (hbound : ∀ y ∈ scannedSeq st.ctrace,
      y ≤ st.equals_by_name_count + st.uniques_count) :
    nonDecreasingB (scannedSeq (N.foldl (stepName g1 g2) st).ctrace) = true ∧
    ∀ y ∈ scannedSeq (N.foldl (stepName g1 g2) st).ctrace,
      y ≤ (N.foldl (stepName g1 g2) st).equals_by_name_count +
        (N.foldl (stepName g1 g2) st).uniques_count := by
  induction N generalizing st with
  | nil => exact ⟨hmono, hbound⟩
  | cons n0 rest ih =>
    have hstep := stepName_ctrace_mono g1 g2 st n0 hmono hbound
    exact ih (stepName g1 g2 st n0) hstep.1 hstep.2

theorem stepName_ctrace_length (g1 g2 : List (String × List Doc))
    (st : CompareState) (nk : String) :
    (stepName g1 g2 st nk).ctrace.length = st.ctrace.length + 1 := by
  simp only [stepName]
  by_cases h2 : (lookupGroup g2 nk).isEmpty
  · simp [h2]
  · simp only [h2, Bool.false_eq_true, if_false]
    by_cases h1 : (lookupGroup g1 nk).isEmpty
    · simp [h1]
    · simp [h1]

theorem foldl_ctrace_length (g1 g2 : List (String × List Doc)) (N : List String)
    (st : CompareState) :
    (N.foldl (stepName g1 g2) st).ctrace.length = st.ctrace.length + N.length := by
  induction N generalizing st with
  | nil => simp
  | cons n0 rest ih =>
    rw [List.foldl_cons, ih, stepName_ctrace_length]
    simp only [List.length_cons]
    omega

theorem analyze_trace_inv (files1 files2 : List Doc) (clock : Nat → Int) :
    ∀ ph s e n,
      Payload.snapshot ph s e n ∈ (analyze_folder_sync files1 files2 clock).trace →
        s = e + n := by
  intro ph s e n hmem
  simp only [analyze_folder_sync] at hmem
  rw [List.mem_append] at hmem
  rcases hmem with hscan | hcomp
  · exact scanPhase_inv clock files1.length files2.length ph s e n hscan
  · rw [List.mem_append] at hcomp
    rcases hcomp with hc | hf
    · refine foldl_ctrace_inv (nameGroups files1) (nameGroups files2)
        (comparedNames files1 files2) initCompare ?_ ph s e n hc
      intro ph' s' e' n' hmem'
      simp [initCompare] at hmem'
    · simp only [List.mem_singleton, Payload.snapshot.injEq] at hf
      obtain ⟨_, hs, he, hn⟩ := hf
      rw [hs, he, hn]

/-- The comparison-loop state reached by `analyze_folder_sync`. -/
def compareFold (files1 files2 : List Doc) : CompareState :=
  (comparedNames files1 files2).foldl
    (stepName (nameGroups files1) (nameGroups files2)) initCompare

/-- Total `count_pairs` of the suspected duplicates (`suspected_count`). -/
def suspectedCount (files1 files2 : List Doc) : Nat :=
  ((suspectedOf (nameGroups files1) (nameGroups files2)
    (compareFold files1 files2).matchedByName).map (fun s => s.count_pairs)).sum

theorem analyze_compare_trace_def (files1 files2 : List Doc) (clock : Nat → Int) :
    (analyze_folder_sync files1 files2 clock).compare_trace =
      (compareFold files1 files2).ctrace ++
        [Payload.snapshot "compare"
          ((compareFold files1 files2).equals_by_name_count +
            ((compareFold files1 files2).uniques_count +
              suspectedCount files1 files2))
          (compareFold files1 files2).equals_by_name_count
          ((compareFold files1 files2).uniques_count +
            suspectedCount files1 files2)] := rfl

theorem analyze_compare_mono (files1 files2 : List Doc) (clock : Nat → Int) :
    nonDecreasingB
      (scannedSeq (analyze_folder_sync files1 files2 clock).compare_trace) = true := by
  rw [analyze_compare_trace_def files1 files2 clock]
  have hfold := foldl_ctrace_mono (nameGroups files1) (nameGroups files2)
    (comparedNames files1 files2) initCompare (by rfl)
    (by intro y hy; simp [initCompare, scannedSeq] at hy)
  rw [scannedSeq_append]
  apply nonDecreasingB_append_single hfold.1
  intro y hy
  have hb := hfold.2 y hy
  refine hb.trans ?_
  have he : (compareFold files1 files2).equals_by_name_count =
      ((comparedNames files1 files2).foldl
        (stepName (nameGroups files1) (nameGroups files2))
        initCompare).equals_by_name_count := rfl
  have hu : (compareFold files1 files2).uniques_count =
      ((comparedNames files1 files2).foldl
        (stepName (nameGroups files1) (nameGroups files2))
        initCompare).uniques_count := rfl
  omega

theorem analyze_compare_trace_length (files1 files2 : List Doc) (clock : Nat → Int) :
    (analyze_folder_sync files1 files2 clock).compare_trace.length =
      (comparedNames files1 files2).length + 1 := by
  rw [analyze_compare_trace_def files1 files2 clock]
  rw [List.length_append]
  have : (compareFold files1 files2).ctrace.length =
      (comparedNames files1 files2).length := by
    rw [compareFold, foldl_ctrace_length]
    simp [initCompare]
  rw [this]
  rfl

/-! ### Executor lemmas -/

theorem uniquePhase_spec (rehash : String → String) (mkTarget : Doc → String)
    (docs : List Doc) :
    (uniquePhase rehash mkTarget docs).copied =
        (docs.filter (fun d => rehash (mkTarget d) == d.md5_hash)).map mkTarget ∧
      (uniquePhase rehash mkTarget docs).indexed =
        (docs.filter (fun d => rehash (mkTarget d) == d.md5_hash)).map mkTarget ∧
      (uniquePhase rehash mkTarget docs).errors =
        (docs.filter (fun d => !(rehash (mkTarget d) == d.md5_hash))).map
          (fun d => "MD5 mismatch for " ++ mkTarget d) ∧
      (uniquePhase rehash mkTarget docs).ops =
        docs.map (fun d => ⟨d.file_path, mkTarget d⟩) := by
  induction docs with
  | nil => exact ⟨rfl, rfl, rfl, rfl⟩
  | cons d rest ih =>
    by_cases hok : rehash (mkTarget d) = d.md5_hash
    · have hb : (rehash (mkTarget d) == d.md5_hash) = true := beq_iff_eq.2 hok
      simp only [uniquePhase, if_pos hok, List.filter_cons, hb, if_true,
        Bool.not_true, Bool.false_eq_true, if_false, List.map_cons]
      exact ⟨by rw [ih.1], by rw [ih.2.1], by rw [ih.2.2.1], by rw [ih.2.2.2]⟩
    · have hb : (rehash (mkTarget d) == d.md5_hash) = false := by
        rw [Bool.eq_false_iff]
        simp [beq_iff_eq, hok]
      simp only [uniquePhase, if_neg hok, List.filter_cons, hb, Bool.false_eq_true,
        if_false, Bool.not_false, if_true, List.map_cons]
      exact ⟨by rw [ih.1], by rw [ih.2.1], by rw [ih.2.2.1], by rw [ih.2.2.2]⟩

theorem resolveDup_unknown (strategy tf1 tf2 : String) (g : DupGroup)
    (h1 : strategy ≠ "keep_both") (h2 : strategy ≠ "keep_newest")
    (h3 : strategy ≠ "keep_largest") :
    resolveDup strategy tf1 tf2 g = ⟨[], [], [], [], []⟩ := by
  obtain ⟨rp, d1s, d2s, mp⟩ := g
  cases d1s with
  | nil => cases d2s <;> rfl
  | cons d1 t1 =>
    cases d2s with
    | nil => rfl
    | cons d2 t2 =>
      simp [resolveDup, h1, h2, h3]

theorem appendOutcome_empty (a : DupOutcome) :
    appendOutcome a ⟨[], [], [], [], []⟩ = a := by
  obtain ⟨c1, c2, r, e, o⟩ := a
  simp [appendOutcome]

theorem foldl_resolveDup_unknown (strategy tf1 tf2 : String) (L : List DupGroup)
    (h1 : strategy ≠ "keep_both") (h2 : strategy ≠ "keep_newest")
    (h3 : strategy ≠ "keep_largest") :
    L.foldl (fun acc g => appendOutcome acc (resolveDup strategy tf1 tf2 g))
      ⟨[], [], [], [], []⟩ = ⟨[], [], [], [], []⟩ := by
  have hgen : ∀ (acc : DupOutcome),
      L.foldl (fun acc g => appendOutcome acc (resolveDup strategy tf1 tf2 g)) acc =
        acc := by
    induction L with
    | nil => intro acc; rfl
    | cons g rest ih =>
      intro acc
      rw [List.foldl_cons, resolveDup_unknown strategy tf1 tf2 g h1 h2 h3,
        appendOutcome_empty]
      exact ih acc
  exact hgen _

theorem scannedSeq_rawScan (t : List Payload) :
    scannedSeq (t ++ [Payload.rawScan]) = scannedSeq t := by
  rw [scannedSeq_append]
  simp [scannedSeq]

theorem emitCall_mono (clock : Nat → Int) (phase : String)
    (scanned equals needs : Nat) (st : EmitState) (cur : Nat)
    (hm : nonDecreasingB (scannedSeq st.trace) = true)
    (hb : ∀ y ∈ scannedSeq st.trace, y ≤ cur)
    (hcv : cur ≤ equals + max needs (scanned - equals)) :
    nonDecreasingB
      (scannedSeq (emitCall clock phase scanned equals needs st).trace) = true ∧
    ∀ y ∈ scannedSeq (emitCall clock phase scanned equals needs st).trace,
      y ≤ equals + max needs (scanned - equals) := by
  unfold emitCall
  split
  · dsimp only
    constructor
    · rw [scannedSeq_append]
      have hx : scannedSeq [Payload.snapshot phase
          (equals + max needs (scanned - equals)) equals
          (max needs (scanned - equals))] =
          [equals + max needs (scanned - equals)] := rfl
      rw [hx]
      exact nonDecreasingB_append_single hm (fun y hy => (hb y hy).trans hcv)
    · intro y hy
      rw [scannedSeq_append] at hy
      rcases List.mem_append.1 hy with hold | hnew
      · exact (hb y hold).trans hcv
      · have hx : scannedSeq [Payload.snapshot phase
            (equals + max needs (scanned - equals)) equals
            (max needs (scanned - equals))] =
            [equals + max needs (scanned - equals)] := rfl
        rw [hx] at hnew
        simp only [List.mem_singleton] at hnew
        omega
  · dsimp only
    exact ⟨hm, fun y hy => (hb y hy).trans hcv⟩

theorem scanLoopAux (clock : Nat → Int) (phase : String) (base n : Nat)
    (L : List Nat) (st : EmitState) (cur M : Nat)
    (hm : nonDecreasingB (scannedSeq st.trace) = true)
    (hb : ∀ y ∈ scannedSeq st.trace, y ≤ cur)
    (hcM : cur ≤ M)
    (hL1 : ∀ i ∈ L, cur ≤ base + i + 1)
    (hLM : ∀ i ∈ L, base + i + 1 ≤ M)
    (hpw : List.Pairwise (· ≤ ·) L) :
    nonDecreasingB (scannedSeq ((L.foldl (fun s idx =>
        if idx % 10 == 0 || idx == n - 1 then
          emitCall clock phase (base + idx + 1) 0 0 s
        else s) st)).trace) = true ∧
    ∀ y ∈ scannedSeq ((L.foldl (fun s idx =>
        if idx % 10 == 0 || idx == n - 1 then
          emitCall clock phase (base + idx + 1) 0 0 s
        else s) st)).trace, y ≤ M := by
  induction L generalizing st cur with
  | nil => exact ⟨hm, fun y hy => (hb y hy).trans hcM⟩
  | cons i rest ih =>
    rw [List.pairwise_cons] at hpw
    rw [List.foldl_cons]
    by_cases hc : (i % 10 == 0 || i == n - 1) = true
    · rw [if_pos hc]
      have hval : (0 : Nat) + max 0 ((base + i + 1) - 0) = base + i + 1 := by
        simp
      have he := emitCall_mono clock phase (base + i + 1) 0 0 st cur hm hb
        (by rw [hval]; exact hL1 i (List.mem_cons_self _ _))
      refine ih _ (0 + max 0 ((base + i + 1) - 0)) he.1 he.2 ?_ ?_ ?_ hpw.2
      · rw [hval]
        exact hLM i (List.mem_cons_self _ _)
      · intro j hj
        rw [hval]
        have := hpw.1 j hj
        omega
      · intro j hj
        exact hLM j (List.mem_cons_of_mem _ hj)
    · rw [if_neg hc]
      refine ih _ cur hm hb hcM ?_ ?_ hpw.2
      · intro j hj
        exact hL1 j (List.mem_cons_of_mem _ hj)
      · intro j hj
        exact hLM j (List.mem_cons_of_mem _ hj)

theorem scanLoop_mono (clock : Nat → Int) (phase : String) (base n : Nat)
    (st : EmitState)
    (hm : nonDecreasingB (scannedSeq st.trace) = true)
    (hb : ∀ y ∈ scannedSeq st.trace, y ≤ base) :
    nonDecreasingB (scannedSeq (scanLoop clock phase base n st).trace) = true ∧
    ∀ y ∈ scannedSeq (scanLoop clock phase base n st).trace, y ≤ base + n := by
  rw [scanLoop]
  refine scanLoopAux clock phase base n (List.range n) st base (base + n) hm hb
    (by omega) ?_ ?_ ((List.pairwise_lt_range n).imp le_of_lt)
  · intro i _
    omega
  · intro i hi
    have := List.mem_range.1 hi
    omega

theorem rawScan_mono (st : EmitState) (B : Nat)
    (hm : nonDecreasingB (scannedSeq st.trace) = true)
    (hb : ∀ y ∈ scannedSeq st.trace, y ≤ B) :
    nonDecreasingB (scannedSeq
      ({ st with trace := st.trace ++ [Payload.rawScan] } : EmitState).trace) = true ∧
    ∀ y ∈ scannedSeq
      ({ st with trace := st.trace ++ [Payload.rawScan] } : EmitState).trace,
      y ≤ B := by
  constructor
  · show nonDecreasingB (scannedSeq (st.trace ++ [Payload.rawScan])) = true
    rw [scannedSeq_rawScan]
    exact hm
  · intro y hy
    have hy2 : y ∈ scannedSeq (st.trace ++ [Payload.rawScan]) := hy
    rw [scannedSeq_rawScan] at hy2
    exact hb y hy2

theorem scanSegment_mono (clock : Nat → Int) (phase : String) (base n T : Nat)
    (hT : T = base + n) (st : EmitState) (cur : Nat)
    (hm : nonDecreasingB (scannedSeq st.trace) = true)
    (hb : ∀ y ∈ scannedSeq st.trace, y ≤ cur) (hcb : cur ≤ base) :
    nonDecreasingB (scannedSeq (emitCall clock phase T 0 0
      (scanLoop clock phase base n st)).trace) = true ∧
    ∀ y ∈ scannedSeq (emitCall clock phase T 0 0
      (scanLoop clock phase base n st)).trace, y ≤ T := by
  have hl := scanLoop_mono clock phase base n st hm
    (fun y hy => (hb y hy).trans hcb)
  have hv : (0 : Nat) + max 0 (T - 0) = T := by simp
  have he := emitCall_mono clock phase T 0 0 _ (base + n) hl.1 hl.2
    (by rw [hv]; omega)
  refine ⟨he.1, ?_⟩
  intro y hy
  have := he.2 y hy
  rw [hv] at this
  exact this

theorem scanPhase_mono (clock : Nat → Int) (n1 n2 : Nat) :
    nonDecreasingB (scannedSeq (scanPhase clock n1 n2).trace) = true := by
  rw [scanPhase]
  have h0m : nonDecreasingB
      (scannedSeq ((⟨1, clock 0 - 1, []⟩ : EmitState).trace)) = true := rfl
  have h0b : ∀ y ∈ scannedSeq ((⟨1, clock 0 - 1, []⟩ : EmitState).trace),
      y ≤ 0 := by
    intro y hy
    simp [scannedSeq] at hy
  have h1 := emitCall_mono clock "starting" 0 0 0 ⟨1, clock 0 - 1, []⟩ 0 h0m h0b
    (by simp)
  have h1b : ∀ y ∈ scannedSeq
      (emitCall clock "starting" 0 0 0 ⟨1, clock 0 - 1, []⟩).trace, y ≤ 0 := by
    intro y hy
    have := h1.2 y hy
    simpa using this
  have h2 := rawScan_mono (emitCall clock "starting" 0 0 0 ⟨1, clock 0 - 1, []⟩) 0
    h1.1 h1b
  have h3 := scanSegment_mono clock "scan_folder1" 0 n1 n1 (by omega) _ 0 h2.1 h2.2
    (le_refl 0)
  have h4 := rawScan_mono _ n1 h3.1 h3.2
  exact (scanSegment_mono clock "scan_folder2" n1 n2 (n1 + n2) rfl _ n1 h4.1 h4.2
    (le_refl n1)).1

theorem analyze_scan_trace_def (files1 files2 : List Doc) (clock : Nat → Int) :
    (analyze_folder_sync files1 files2 clock).scan_trace =
      (scanPhase clock files1.length files2.length).trace := rfl

theorem analyze_scan_mono (files1 files2 : List Doc) (clock : Nat → Int) :
    nonDecreasingB
      (scannedSeq (analyze_folder_sync files1 files2 clock).scan_trace) = true := by
  rw [analyze_scan_trace_def]
  exact scanPhase_mono clock files1.length files2.length

theorem analyze_trace_split (files1 files2 : List Doc) (clock : Nat → Int) :
    (analyze_folder_sync files1 files2 clock).trace =
      (analyze_folder_sync files1 files2 clock).scan_trace ++
        (analyze_folder_sync files1 files2 clock).compare_trace := rfl


/-! ### Concrete inputs used by counterexamples and witnesses -/

/-- Clock advancing two seconds per `time.time()` call, so every throttled
emission fires. -/
def exClock : Nat → Int := fun n => 2 * n

/-- Folder-1 record `/f1/a.txt`. -/
def u1Doc : Doc := ⟨"/f1/a.txt", "h1", 1, none⟩

/-- Oracle under which every copy verifies (`h1` everywhere). -/
def rehashOK : String → String := fun _ => "h1"

/-- Conflict pair with no timestamps at all. -/
def k1Doc : Doc := ⟨"/f1/n.txt", "h1", 1, none⟩

/-- Folder-2 half of the timestamp-free conflict. -/
def k2Doc : Doc := ⟨"/f2/n.txt", "h2", 1, none⟩

/-- Live filesystem mtimes for the `keep_newest` scenario: folder2's file
is strictly newer on disk. -/
def mtimeEx : String → Int := fun p => if p = "/f2/n.txt" then 100 else 0

/-- Conflict pair where folder1's record is newer by `date_created`. -/
def c81Doc : Doc := ⟨"/f1/n.txt", "h1", 1, some 5⟩

/-- Folder-2 half of that conflict (older, different content). -/
def c82Doc : Doc := ⟨"/f2/n.txt", "h2", 1, some 3⟩

/-- Oracle modelling a corrupted target: every re-hash disagrees. -/
def rehashBad : String → String := fun _ => "CORRUPT"

/-- A file unique to folder2 whose target already holds identical bytes
(the oracle hashes everything to its digest). -/
def c9bDoc : Doc := ⟨"/f2/b.txt", "hb", 4, none⟩

/-- Oracle returning that file's digest for every path. -/
def rehashHb : String → String := fun _ => "hb"

/-- C1 counterexample records: one `f.txt` on side A ... -/
def exA1 : Doc := ⟨"/a/f.txt", "h1", 1, none⟩

/-- ... matched by content with the first side-B `f.txt` ... -/
def exB1 : Doc := ⟨"/b/f.txt", "h1", 2, none⟩

/-- ... while a second side-B `f.txt` has different content. -/
def exB2 : Doc := ⟨"/b/s/f.txt", "h2", 3, none⟩

/-- Spec example side A for pairing minimality: hashes `{h1: 3, h2: 1}`. -/
def e2A : List Doc :=
  [⟨"/f1/n.txt", "h1", 1, none⟩, ⟨"/f1/p/n.txt", "h1", 1, none⟩,
   ⟨"/f1/q/n.txt", "h1", 1, none⟩, ⟨"/f1/r/n.txt", "h2", 1, none⟩]

/-- Spec example side B: hashes `{h1: 2, h2: 1}` under the same name. -/
def e2B : List Doc :=
  [⟨"/f2/n.txt", "h1", 1, none⟩, ⟨"/f2/p/n.txt", "h1", 1, none⟩,
   ⟨"/f2/r/n.txt", "h2", 1, none⟩]

/-- Suspected-rename scenario: tree A holds only `x.txt` with hash `H`. -/
def xDoc : Doc := ⟨"/a/x.txt", "H", 5, none⟩

/-- Tree B holds only `y.txt` with the same hash `H`. -/
def yDoc : Doc := ⟨"/b/y.txt", "H", 5, none⟩

/-- Three same-named, differently-hashed files on side 1 (progress
counterexample). -/
def m1Doc : Doc := ⟨"/f1/a.txt", "ha", 1, none⟩

/-- Second of the three `a.txt` records. -/
def m2Doc : Doc := ⟨"/f1/s/a.txt", "hb", 1, none⟩

/-- Third of the three `a.txt` records. -/
def m3Doc : Doc := ⟨"/f1/t/a.txt", "hc", 1, none⟩

/-- The lone folder-2 record of the progress counterexample. -/
def m9Doc : Doc := ⟨"/f2/b.txt", "h9", 1, none⟩

/-- Five distinct filenames on side 1 (throttling counterexample). -/
def n5Docs : List Doc :=
  [⟨"/f1/a.txt", "1", 1, none⟩, ⟨"/f1/b.txt", "2", 1, none⟩,
   ⟨"/f1/c.txt", "3", 1, none⟩, ⟨"/f1/d.txt", "4", 1, none⟩,
   ⟨"/f1/e.txt", "5", 1, none⟩]

/-! ### Claim theorems -/

/-- C4 counterexample: a non-dry-run `sync_folders` call with the
unrecognized strategy `"delete_all"` does not fail; it completes, performs
a byte copy, updates the catalog for the target, and reports no error —
contradicting "fails immediately with an InvalidStrategy error before any
filesystem mutation". -/
theorem C4_counterexample :
    sync_folders [u1Doc] [] "/f1" "/f2" "delete_all" none none false
        rehashOK exClock =
      ⟨"completed", [], ["/f2/a.txt"], [], [], ["/f2/a.txt"],
        [⟨"/f1/a.txt", "/f2/a.txt"⟩]⟩ := by
  decide

/-- C4 (amended): `sync_folders` performs no strategy validation.  Under
any strategy string outside `{keep_both, keep_newest, keep_largest}` a
non-dry-run invocation still copies all unique-side files (with hash
verification), while every conflict group is silently skipped: no copy,
no resolution entry and no error is produced for it. -/
theorem C4_no_validation (files1 files2 : List Doc)
    (folder1 folder2 strategy : String) (t1 t2 : Option String)
    (rehash : String → String) (clock : Nat → Int)
    (h : strategy ∉ ["keep_both", "keep_newest", "keep_largest"]) :
    sync_folders files1 files2 folder1 folder2 strategy t1 t2 false rehash clock =
      { status := "completed"
        copied_to_folder1 := (uniquePhase rehash
          (fun d => joinPath (t1.getD folder1) (relpathOf d.file_path folder2))
          (analyze_folder_sync files1 files2 clock).missing_in_folder1).copied
        copied_to_folder2 := (uniquePhase rehash
          (fun d => joinPath (t2.getD folder2) (relpathOf d.file_path folder1))
          (analyze_folder_sync files1 files2 clock).missing_in_folder2).copied
        resolved_duplicates := []
        errors := (uniquePhase rehash
          (fun d => joinPath (t1.getD folder1) (relpathOf d.file_path folder2))
          (analyze_folder_sync files1 files2 clock).missing_in_folder1).errors ++
          (uniquePhase rehash
            (fun d => joinPath (t2.getD folder2) (relpathOf d.file_path folder1))
            (analyze_folder_sync files1 files2 clock).missing_in_folder2).errors
        indexed := (uniquePhase rehash
          (fun d => joinPath (t1.getD folder1) (relpathOf d.file_path folder2))
          (analyze_folder_sync files1 files2 clock).missing_in_folder1).indexed ++
          (uniquePhase rehash
            (fun d => joinPath (t2.getD folder2) (relpathOf d.file_path folder1))
            (analyze_folder_sync files1 files2 clock).missing_in_folder2).indexed
        byte_copies := (uniquePhase rehash
          (fun d => joinPath (t1.getD folder1) (relpathOf d.file_path folder2))
          (analyze_folder_sync files1 files2 clock).missing_in_folder1).ops ++
          (uniquePhase rehash
            (fun d => joinPath (t2.getD folder2) (relpathOf d.file_path folder1))
            (analyze_folder_sync files1 files2 clock).missing_in_folder2).ops } := by
  simp only [List.mem_cons, List.not_mem_nil, or_false, not_or] at h
  obtain ⟨h1, h2, h3⟩ := h
  simp only [sync_folders, Bool.false_eq_true, if_false]
  rw [foldl_resolveDup_unknown strategy _ _ _ h1 h2 h3]
  simp

/-- C4 witness: the amended statement applied to the concrete
`"delete_all"` invocation. -/
theorem C4_no_validation_witness :
    ("delete_all" ∉ ["keep_both", "keep_newest", "keep_largest"]) ∧
    sync_folders [u1Doc] [] "/f1" "/f2" "delete_all" none none false
        rehashOK exClock =
      { status := "completed"
        copied_to_folder1 := (uniquePhase rehashOK
          (fun d => joinPath ((none : Option String).getD "/f1")
            (relpathOf d.file_path "/f2"))
          (analyze_folder_sync [u1Doc] [] exClock).missing_in_folder1).copied
        copied_to_folder2 := (uniquePhase rehashOK
          (fun d => joinPath ((none : Option String).getD "/f2")
            (relpathOf d.file_path "/f1"))
          (analyze_folder_sync [u1Doc] [] exClock).missing_in_folder2).copied
        resolved_duplicates := []
        errors := (uniquePhase rehashOK
          (fun d => joinPath ((none : Option String).getD "/f1")
            (relpathOf d.file_path "/f2"))
          (analyze_folder_sync [u1Doc] [] exClock).missing_in_folder1).errors ++
          (uniquePhase rehashOK
            (fun d => joinPath ((none : Option String).getD "/f2")
              (relpathOf d.file_path "/f1"))
            (analyze_folder_sync [u1Doc] [] exClock).missing_in_folder2).errors
        indexed := (uniquePhase rehashOK
          (fun d => joinPath ((none : Option String).getD "/f1")
            (relpathOf d.file_path "/f2"))
          (analyze_folder_sync [u1Doc] [] exClock).missing_in_folder1).indexed ++
          (uniquePhase rehashOK
            (fun d => joinPath ((none : Option String).getD "/f2")
              (relpathOf d.file_path "/f1"))
            (analyze_folder_sync [u1Doc] [] exClock).missing_in_folder2).indexed
        byte_copies := (uniquePhase rehashOK
          (fun d => joinPath ((none : Option String).getD "/f1")
            (relpathOf d.file_path "/f2"))
          (analyze_folder_sync [u1Doc] [] exClock).missing_in_folder1).ops ++
          (uniquePhase rehashOK
            (fun d => joinPath ((none : Option String).getD "/f2")
              (relpathOf d.file_path "/f1"))
            (analyze_folder_sync [u1Doc] [] exClock).missing_in_folder2).ops } :=
  ⟨by decide,
   C4_no_validation [u1Doc] [] "/f1" "/f2" "delete_all" none none rehashOK exClock
     (by decide)⟩

/-- C5 counterexample: both conflict records lack `date_created`.  Under
the spec's selection key (modified, then created, then live mtime) the
folder-2 record is strictly newer on disk and must win and be copied to
folder1, but `sync_folders` copies the folder-1 record to folder2 — the
filesystem is never probed. -/
theorem C5_counterexample :
    keepNewestSpecStamp mtimeEx k1Doc < keepNewestSpecStamp mtimeEx k2Doc ∧
    sync_folders [k1Doc] [k2Doc] "/f1" "/f2" "keep_newest" none none false
        (fun _ => "x") exClock =
      ⟨"completed", [], ["/f2/n.txt"],
        [⟨"n.txt", "keep_newest_folder1", ["/f2/n.txt"]⟩], [], [],
        [⟨"/f1/n.txt", "/f2/n.txt"⟩]⟩ := by
  exact ⟨by decide, by decide⟩

/-- C5 (amended): `keep_newest` compares only `date_created` (the catalog
record has no modified timestamp), treating a missing value as the epoch;
the folder-2 record wins only when strictly later, and ties or missing
values favour folder1.  Filesystem mtimes are never consulted. -/
theorem C5_keep_newest (tf1 tf2 nk : String) (d1 d2 : Doc) (t1 t2 : List Doc)
    (mp : List MatchedPair) :
    resolveDup "keep_newest" tf1 tf2 ⟨nk, d1 :: t1, d2 :: t2, mp⟩ =
      (if d2.date_created.getD 0 > d1.date_created.getD 0 then
        ⟨[joinPath tf1 nk], [],
          [⟨nk, "keep_newest_folder2", [joinPath tf1 nk]⟩], [],
          [⟨d2.file_path, joinPath tf1 nk⟩]⟩
      else
        ⟨[], [joinPath tf2 nk],
          [⟨nk, "keep_newest_folder1", [joinPath tf2 nk]⟩], [],
          [⟨d1.file_path, joinPath tf2 nk⟩]⟩) := by
  rfl

/-- C8 counterexample: a `keep_newest` conflict resolution copies folder1's
file while the re-hash oracle reports a different digest for the target,
yet the item is counted as copied and resolved with an empty error list —
the strategy-resolution copies are never re-hashed. -/
theorem C8_counterexample :
    rehashBad "/f2/n.txt" ≠ c81Doc.md5_hash ∧
    sync_folders [c81Doc] [c82Doc] "/f1" "/f2" "keep_newest" none none false
        rehashBad exClock =
      ⟨"completed", [], ["/f2/n.txt"],
        [⟨"n.txt", "keep_newest_folder1", ["/f2/n.txt"]⟩], [], [],
        [⟨"/f1/n.txt", "/f2/n.txt"⟩]⟩ := by
  exact ⟨by decide, by decide⟩

/-- C8 (amended): the copies of files unique to one side are verified: each
target is re-hashed; on a match the item is counted as copied and the
catalog is updated, on a mismatch a per-item "MD5 mismatch" error is
recorded instead, the item is neither counted copied nor indexed, and
every remaining item is still processed (copied + errors = all items).
Strategy-resolution copies are not covered (see the counterexample). -/
theorem C8_unique_copy_verified (rehash : String → String)
    (mkTarget : Doc → String) (docs : List Doc) :
    (uniquePhase rehash mkTarget docs).copied =
        (docs.filter (fun d => rehash (mkTarget d) == d.md5_hash)).map mkTarget ∧
    (uniquePhase rehash mkTarget docs).indexed =
        (docs.filter (fun d => rehash (mkTarget d) == d.md5_hash)).map mkTarget ∧
    (uniquePhase rehash mkTarget docs).errors =
        (docs.filter (fun d => !(rehash (mkTarget d) == d.md5_hash))).map
          (fun d => "MD5 mismatch for " ++ mkTarget d) ∧
    (uniquePhase rehash mkTarget docs).copied.length +
        (uniquePhase rehash mkTarget docs).errors.length = docs.length := by
  obtain ⟨hc, hi, he, ho⟩ := uniquePhase_spec rehash mkTarget docs
  refine ⟨hc, hi, he, ?_⟩
  rw [hc, he, List.length_map, List.length_map]
  have hp := (List.filter_append_perm
    (fun d => rehash (mkTarget d) == d.md5_hash) docs).length_eq
  rw [List.length_append] at hp
  exact hp

/-- C9 counterexample: the target of the planned copy already holds bytes
with the source's digest (the oracle hashes it to `hb`), yet the byte copy
is performed (`byte_copies` is non-empty) and the item is reported as
copied; `sync_folders` has no skipped outcome at all. -/
theorem C9_counterexample :
    rehashHb "/f1/b.txt" = c9bDoc.md5_hash ∧
    sync_folders [] [c9bDoc] "/f1" "/f2" "keep_both" none none false
        rehashHb exClock =
      ⟨"completed", ["/f1/b.txt"], [], [], [], ["/f1/b.txt"],
        [⟨"/f2/b.txt", "/f1/b.txt"⟩]⟩ := by
  exact ⟨by decide, by decide⟩

/-- C9 (amended): the executor never consults the target before copying:
the set of performed byte copies is independent of the hash state of the
filesystem (the `rehash` oracle), and the unique-file loop performs one
byte copy per record unconditionally. -/
theorem C9_always_copies :
    (∀ (files1 files2 : List Doc) (folder1 folder2 strategy : String)
        (t1 t2 : Option String) (dry : Bool) (rehash rehash' : String → String)
        (clock : Nat → Int),
      (sync_folders files1 files2 folder1 folder2 strategy t1 t2 dry rehash
        clock).byte_copies =
        (sync_folders files1 files2 folder1 folder2 strategy t1 t2 dry rehash'
          clock).byte_copies) ∧
    (∀ (rehash : String → String) (mkTarget : Doc → String) (docs : List Doc),
      (uniquePhase rehash mkTarget docs).ops =
        docs.map (fun d => ⟨d.file_path, mkTarget d⟩)) := by
  constructor
  · intro files1 files2 folder1 folder2 strategy t1 t2 dry rehash rehash' clock
    cases dry with
    | true => rfl
    | false =>
      simp only [sync_folders, Bool.false_eq_true, if_false]
      rw [(uniquePhase_spec rehash _ _).2.2.2, (uniquePhase_spec rehash _ _).2.2.2,
        (uniquePhase_spec rehash' _ _).2.2.2, (uniquePhase_spec rehash' _ _).2.2.2]
  · intro rehash mkTarget docs
    exact (uniquePhase_spec rehash mkTarget docs).2.2.2

/-- C10: the resolution of a conflict group depends only on the first
record of each side's list — the outcome for `d1 :: t1` versus `d2 :: t2`
equals the outcome for `[d1]` versus `[d2]` (with any `matched_pairs`), so
the remaining records are neither copied, resolved nor reported as
errors. -/
theorem C10_first_record_only (strategy tf1 tf2 nk : String) (d1 d2 : Doc)
    (t1 t2 : List Doc) (mp mp' : List MatchedPair) :
    resolveDup strategy tf1 tf2 ⟨nk, d1 :: t1, d2 :: t2, mp⟩ =
      resolveDup strategy tf1 tf2 ⟨nk, [d1], [d2], mp'⟩ := by
  rfl

/-- C1 counterexample: side A's only record `/a/f.txt` is counted as an
exact match (it is the sole matched pair, `exact_match_count = 1`) and yet
also appears in the reported conflict group's `folder1_docs` — because
side A has no leftover records, the group's `folder1_docs` falls back to
the full name-group, double-classifying the record. -/
theorem C1_counterexample :
    (analyze_folder_sync [exA1] [exB1, exB2] exClock).exact_match_count = 1 ∧
    (analyze_folder_sync [exA1] [exB1, exB2] exClock).all_matched_pairs =
      [⟨exA1, exB1, "h1"⟩] ∧
    (analyze_folder_sync [exA1] [exB1, exB2] exClock).duplicates =
      [⟨"f.txt", [exA1], [exB2], [⟨exA1, exB1, "h1"⟩]⟩] := by
  refine ⟨by decide, by decide, by decide⟩

/-- C1 (amended): the classification itself is a partition — each side's
input records are, as a multiset, exactly the matched pairs' records of
that side plus that side's leftover (unmatched) records plus the records
unique to that side; no record is dropped or double-counted there.  The
*reported* conflict lists are weaker: when one side of a name group has no
leftovers, its `folder1_docs`/`folder2_docs` entry falls back to the full
name group, so an exact-matched record can additionally appear in a
conflict group's doc list (see the counterexample). -/
theorem C1_partition (files1 files2 : List Doc) (clock : Nat → Int) :
    List.Perm files1
      ((analyze_folder_sync files1 files2 clock).all_matched_pairs.map
          (fun p => p.folder1) ++
        (analyze_folder_sync files1 files2 clock).all_unmatched_f1 ++
        (analyze_folder_sync files1 files2 clock).missing_in_folder2) ∧
    List.Perm files2
      ((analyze_folder_sync files1 files2 clock).all_matched_pairs.map
          (fun p => p.folder2) ++
        (analyze_folder_sync files1 files2 clock).all_unmatched_f2 ++
        (analyze_folder_sync files1 files2 clock).missing_in_folder1) :=
  ⟨analyze_partition_f1 files1 files2 clock,
   analyze_partition_f2 files1 files2 clock⟩

/-- C2: pairing minimality.  For any filename's record lists and any hash
`h`, exactly `min(count_a h, count_b h)` pairs with hash `h` are matched
(and `exact_here` counts exactly the matched pairs); each side's leftover
records number `count h - min(count_a h, count_b h)` per hash; and in the
full analysis every leftover record is placed in some conflict group's doc
list for its side. -/
theorem C2_pairing_minimality :
    (∀ (docs1 docs2 : List Doc) (h : String),
      (compareName docs1 docs2).matched_pairs.countP (fun p => p.md5 == h) =
        min (docs1.countP (fun d => d.md5_hash == h))
          (docs2.countP (fun d => d.md5_hash == h)) ∧
      (compareName docs1 docs2).exact_here =
        (compareName docs1 docs2).matched_pairs.length ∧
      (compareName docs1 docs2).unmatched_f1.countP (fun d => d.md5_hash == h) =
        docs1.countP (fun d => d.md5_hash == h) -
          min (docs1.countP (fun d => d.md5_hash == h))
            (docs2.countP (fun d => d.md5_hash == h)) ∧
      (compareName docs1 docs2).unmatched_f2.countP (fun d => d.md5_hash == h) =
        docs2.countP (fun d => d.md5_hash == h) -
          min (docs1.countP (fun d => d.md5_hash == h))
            (docs2.countP (fun d => d.md5_hash == h))) ∧
    (∀ (files1 files2 : List Doc) (clock : Nat → Int) (d : Doc),
      (d ∈ (analyze_folder_sync files1 files2 clock).all_unmatched_f1 →
        ∃ g ∈ (analyze_folder_sync files1 files2 clock).duplicates,
          d ∈ g.folder1_docs) ∧
      (d ∈ (analyze_folder_sync files1 files2 clock).all_unmatched_f2 →
        ∃ g ∈ (analyze_folder_sync files1 files2 clock).duplicates,
          d ∈ g.folder2_docs)) := by
  constructor
  · intro docs1 docs2 h
    exact ⟨countP_matched_compareName docs1 docs2 h,
      exact_here_eq_matched_length docs1 docs2,
      countP_unmatched_f1 docs1 docs2 h,
      countP_unmatched_f2 docs1 docs2 h⟩
  · intro files1 files2 clock d
    have hfold := foldl_unmatched_in_dups (nameGroups files1) (nameGroups files2)
      (comparedNames files1 files2) initCompare
      (by intro d hd; simp [initCompare] at hd)
      (by intro d hd; simp [initCompare] at hd)
    exact ⟨fun hd => hfold.1 d hd, fun hd => hfold.2 d hd⟩

/-- C2 witness: the spec's `{h1: 3, h2: 1}` versus `{h1: 2, h2: 1}` example
instantiated (3 exact matches, a single folder-1 leftover which sits in
the reported conflict group). -/
theorem C2_pairing_minimality_witness :
    ((compareName e2A e2B).matched_pairs.countP (fun p => p.md5 == "h1") =
      min (e2A.countP (fun d => d.md5_hash == "h1"))
        (e2B.countP (fun d => d.md5_hash == "h1"))) ∧
    (∃ g ∈ (analyze_folder_sync e2A e2B exClock).duplicates,
      (⟨"/f1/q/n.txt", "h1", 1, none⟩ : Doc) ∈ g.folder1_docs) ∧
    (compareName e2A e2B).exact_here = 3 ∧
    (compareName e2A e2B).unmatched_f1.length = 1 :=
  ⟨(C2_pairing_minimality.1 e2A e2B "h1").1,
   (C2_pairing_minimality.2 e2A e2B exClock ⟨"/f1/q/n.txt", "h1", 1, none⟩).1
     (by decide),
   by decide, by decide⟩

/-- C3: suspected renames.  The `x.txt`/`y.txt` scenario produces exactly
the spec's classification and single suspected-rename entry, and in
general every recorded entry concerns a hash present on both sides whose
same-name pairing left `min(count1, count2) - matched` occurrences
unexplained (a positive number), with disjoint name sets. -/
theorem C3_suspected_renames :
    ((analyze_folder_sync [xDoc] [yDoc] exClock).missing_in_folder2 = [xDoc] ∧
     (analyze_folder_sync [xDoc] [yDoc] exClock).missing_in_folder1 = [yDoc] ∧
     (analyze_folder_sync [xDoc] [yDoc] exClock).suspected_duplicates =
       [⟨"H", ["x.txt"], ["y.txt"], 1⟩]) ∧
    (∀ (files1 files2 : List Doc) (clock : Nat → Int) (s : Suspected),
      s ∈ (analyze_folder_sync files1 files2 clock).suspected_duplicates →
        s.count_pairs =
          min (files1.countP (fun d => d.md5_hash == s.md5))
            (files2.countP (fun d => d.md5_hash == s.md5)) -
          (analyze_folder_sync files1 files2 clock).all_matched_pairs.countP
            (fun p => p.md5 == s.md5) ∧
        0 < s.count_pairs ∧
        0 < files1.countP (fun d => d.md5_hash == s.md5) ∧
        0 < files2.countP (fun d => d.md5_hash == s.md5) ∧
        ∀ n ∈ s.folder1_names, n ∉ s.folder2_names) := by
  constructor
  · exact ⟨by decide, by decide, by decide⟩
  · intro files1 files2 clock s hs
    have hspec := suspectedOf_spec (nameGroups files1) (nameGroups files2)
      (compareFold files1 files2).matchedByName s hs
    have hc1 : lookupCount (md5CountsOf (nameGroups files1)) s.md5 =
        files1.countP (fun d => d.md5_hash == s.md5) := by
      rw [lookupCount_md5CountsOf]
      exact (flatten_groupByKey_perm (fun d : Doc => basename d.file_path)
        files1).countP_eq _
    have hc2 : lookupCount (md5CountsOf (nameGroups files2)) s.md5 =
        files2.countP (fun d => d.md5_hash == s.md5) := by
      rw [lookupCount_md5CountsOf]
      exact (flatten_groupByKey_perm (fun d : Doc => basename d.file_path)
        files2).countP_eq _
    have hcm : lookupCount (compareFold files1 files2).matchedByName s.md5 =
        (analyze_folder_sync files1 files2 clock).all_matched_pairs.countP
          (fun p => p.md5 == s.md5) := by
      refine foldl_matchedByName (nameGroups files1) (nameGroups files2)
        (comparedNames files1 files2) initCompare s.md5 ?_
      rfl
    obtain ⟨heq, hpos, hdisj⟩ := hspec
    rw [hc1, hc2, hcm] at heq
    refine ⟨heq, hpos, ?_, ?_, hdisj⟩
    · omega
    · omega

/-- C3 witness: the general suspected-rename property applied to the
concrete `x.txt`/`y.txt` scenario's recorded entry. -/
theorem C3_suspected_renames_witness :
    (⟨"H", ["x.txt"], ["y.txt"], 1⟩ : Suspected).count_pairs =
      min ([xDoc].countP (fun d => d.md5_hash ==
          (⟨"H", ["x.txt"], ["y.txt"], 1⟩ : Suspected).md5))
        ([yDoc].countP (fun d => d.md5_hash ==
          (⟨"H", ["x.txt"], ["y.txt"], 1⟩ : Suspected).md5)) -
      (analyze_folder_sync [xDoc] [yDoc] exClock).all_matched_pairs.countP
        (fun p => p.md5 == (⟨"H", ["x.txt"], ["y.txt"], 1⟩ : Suspected).md5) ∧
    0 < (⟨"H", ["x.txt"], ["y.txt"], 1⟩ : Suspected).count_pairs ∧
    0 < [xDoc].countP (fun d => d.md5_hash ==
      (⟨"H", ["x.txt"], ["y.txt"], 1⟩ : Suspected).md5) ∧
    0 < [yDoc].countP (fun d => d.md5_hash ==
      (⟨"H", ["x.txt"], ["y.txt"], 1⟩ : Suspected).md5) ∧
    ∀ n ∈ (⟨"H", ["x.txt"], ["y.txt"], 1⟩ : Suspected).folder1_names,
      n ∉ (⟨"H", ["x.txt"], ["y.txt"], 1⟩ : Suspected).folder2_names :=
  C3_suspected_renames.2 [xDoc] [yDoc] exClock ⟨"H", ["x.txt"], ["y.txt"], 1⟩
    (by decide)

/-- C6 counterexample: with a clock under which every throttled emission
fires, the scanned counters reported over one full analysis are
`[0, 1, 3, 3, 4, 4, 3, 4, 4]` — the value drops from 4 to 3 at the
scan-to-compare transition, so `scanned` is not monotonically
non-decreasing across the job. -/
theorem C6_counterexample :
    scannedSeq (analyze_folder_sync [m1Doc, m2Doc, m3Doc] [m9Doc] exClock).trace =
      [0, 1, 3, 3, 4, 4, 3, 4, 4] ∧
    nonDecreasingB
      (scannedSeq
        (analyze_folder_sync [m1Doc, m2Doc, m3Doc] [m9Doc] exClock).trace) =
      false := by
  exact ⟨by decide, by decide⟩

/-- C6 (amended): every counter-carrying snapshot emitted during one
analysis satisfies `scanned = equals + needs_sync`; the whole trace is the
scan-phase emissions followed by the compare-phase emissions, and within
each of the two phases `scanned` is monotonically non-decreasing (the scan
phase reports the running `scanned_indexed`, the compare phase the running
classification totals, the final emission included); only across the
scan-to-compare transition can `scanned` decrease (see the
counterexample). -/
theorem C6_progress_invariant (files1 files2 : List Doc) (clock : Nat → Int) :
    (∀ ph s e n,
      Payload.snapshot ph s e n ∈ (analyze_folder_sync files1 files2 clock).trace →
        s = e + n) ∧
    (analyze_folder_sync files1 files2 clock).trace =
      (analyze_folder_sync files1 files2 clock).scan_trace ++
        (analyze_folder_sync files1 files2 clock).compare_trace ∧
    nonDecreasingB
      (scannedSeq (analyze_folder_sync files1 files2 clock).scan_trace) = true ∧
    nonDecreasingB
      (scannedSeq (analyze_folder_sync files1 files2 clock).compare_trace) = true :=
  ⟨analyze_trace_inv files1 files2 clock,
   analyze_trace_split files1 files2 clock,
   analyze_scan_mono files1 files2 clock,
   analyze_compare_mono files1 files2 clock⟩

/-- C6 witness: the invariant applied to the first snapshot of the
counterexample run, plus the per-phase monotonicity of that run. -/
theorem C6_progress_invariant_witness :
    ((0 : Nat) = 0 + 0) ∧
    nonDecreasingB
      (scannedSeq
        (analyze_folder_sync [m1Doc, m2Doc, m3Doc] [m9Doc] exClock).scan_trace) =
      true ∧
    nonDecreasingB
      (scannedSeq
        (analyze_folder_sync [m1Doc, m2Doc, m3Doc] [m9Doc] exClock).compare_trace) =
      true :=
  ⟨(C6_progress_invariant [m1Doc, m2Doc, m3Doc] [m9Doc] exClock).1 "starting" 0 0 0
     (by decide),
   (C6_progress_invariant [m1Doc, m2Doc, m3Doc] [m9Doc] exClock).2.2.1,
   (C6_progress_invariant [m1Doc, m2Doc, m3Doc] [m9Doc] exClock).2.2.2⟩

/-- C7 counterexample: an input with five compared filenames produces six
compare-phase callback invocations — one forced emission per filename plus
the final one — so the callback count is not bounded well below the number
of compared filenames. -/
theorem C7_counterexample :
    (comparedNames n5Docs []).length = 5 ∧
    (analyze_folder_sync n5Docs [] exClock).compare_trace.length = 6 := by
  exact ⟨by decide, by decide⟩

/-- C7 (amended): only the scan-phase emissions are throttled; the compare
loop passes `force=True` on every filename, so the compare-phase callback
count is exactly the number of compared filenames plus one (the final
emission) — linear in the input, once per compared name. -/
theorem C7_forced_per_name (files1 files2 : List Doc) (clock : Nat → Int) :
    (analyze_folder_sync files1 files2 clock).compare_trace.length =
      (comparedNames files1 files2).length + 1 :=
  analyze_compare_trace_length files1 files2 clock
